import Mathlib

/-!
# Verification of the iomap buffered-I/O layer (fs/iomap/buffered-io.c)

A shallow embedding of the page-cache orchestration layer of
`fs/iomap/buffered-io.c`, together with proofs about the properties of
its sub-block uptodate tracking, ioend merging, write begin/end
protocol, zero-range walking, read completion accounting and the
writeback error paths.

Machine integers of the C source (`loff_t`, `unsigned`, `u64`) are
represented as `Nat`; the quantities involved are non-negative and the
theorems carry the alignment/size hypotheses under which the C
arithmetic cannot underflow, so truncated subtraction agrees with the
source.  Error codes (`int` return values) are `Int`, negative on
failure, as in the source.
-/

/-- `PAGE_SIZE`: the fixed page-cache unit size (4096 bytes, `PAGE_SHIFT = 12`). -/
def PAGE_SIZE : Nat := 4096

/-- `PAGE_SHIFT`. -/
def PAGE_SHIFT : Nat := 12

/-- `SECTOR_SHIFT`: 512-byte device sectors. -/
def SECTOR_SHIFT : Nat := 9

/-- Extent type `IOMAP_HOLE` (include/linux/iomap.h; the numeric codes of the
tagged union of extent kinds described by the spec's data model). -/
def IOMAP_HOLE : Nat := 0

/-- Extent type `IOMAP_DELALLOC`. -/
def IOMAP_DELALLOC : Nat := 1

/-- Extent type `IOMAP_MAPPED`. -/
def IOMAP_MAPPED : Nat := 2

/-- Extent type `IOMAP_UNWRITTEN`. -/
def IOMAP_UNWRITTEN : Nat := 3

/-- Extent type `IOMAP_INLINE`. -/
def IOMAP_INLINE : Nat := 4

/-- Flag bit `IOMAP_F_NEW` of the extent/ioend flags word. -/
def IOMAP_F_NEW : Nat := 1

/-- Flag bit `IOMAP_F_SHARED` of the extent/ioend flags word. -/
def IOMAP_F_SHARED : Nat := 4

/-- `struct iomap`: one extent returned by the filesystem's mapping
operation.  `addr` is the device byte address of the extent start
(`iomap->addr`); `offset`/`length` delimit the file byte range. -/
structure iomap where
  type : Nat
  flags : Nat
  offset : Nat
  length : Nat
  addr : Nat
deriving Repr, DecidableEq

/-- `struct iomap_page`: the lazily allocated per-page state; a per-block
uptodate bitmap (as a predicate on block indices within the page) and the
two inflight-I/O reference counts. -/
structure iomap_page where
  uptodate : Nat → Bool
  read_count : Nat
  write_count : Nat

/-- `struct page`: the page-cache unit with its flag bits and the optional
`iomap_page` private state (`to_iomap_page`). -/
structure page where
  uptodate : Bool
  dirty : Bool
  writeback : Bool
  locked : Bool
  error : Bool
  iop : Option iomap_page

/-- `i_blocksize(inode)` for an inode with `i_blkbits = bb`. -/
def i_blocksize (bb : Nat) : Nat := 2 ^ bb

/-- `iomap_page_create`: return the existing `iomap_page`, or none when the
block size equals the page size, otherwise attach a fresh one with a zeroed
bitmap and zeroed counts. -/
def iomap_page_create (bb : Nat) (pg : page) : page :=
  if pg.iop.isSome ∨ i_blocksize bb = PAGE_SIZE then pg
  else { pg with iop := some ⟨fun _ => false, 0, 0⟩ }

/-- The first (`/* move forward for each leading block marked uptodate */`)
loop of `iomap_adjust_read_range`: the number of consecutive blocks marked
uptodate starting at block `i`, scanning at most `n` blocks (`n` is
`last + 1 - i`, the number of blocks left in the requested range). -/
def lead_run (up : Nat → Bool) (i : Nat) : Nat → Nat
  | 0 => 0
  | n + 1 => if up i then lead_run up (i + 1) n + 1 else 0

/-- The second (`/* truncate len if we find any trailing uptodate block(s) */`)
loop of `iomap_adjust_read_range`: the first block index `≥ i` whose uptodate
bit is set, scanning at most `n` blocks; `none` when no bit is set in the
scanned range. -/
def first_set (up : Nat → Bool) (i : Nat) : Nat → Option Nat
  | 0 => none
  | n + 1 => if up i then some i else first_set up (i + 1) n

/-- The result of `iomap_adjust_read_range`: the (possibly advanced) file
position `*pos`, the offset in the page `*offp` and the length `*lenp`. -/
structure adjust_result where
  pos : Nat
  off : Nat
  len : Nat
deriving Repr, DecidableEq

/-- `iomap_adjust_read_range`: calculate the range inside the page that
actually needs to be read.  Trims leading already-uptodate blocks (first
loop), truncates at the first uptodate block found after that (second
loop), and clips blocks entirely beyond `i_size` so that they are zeroed
rather than read. -/
def iomap_adjust_read_range (isize bb : Nat) (iop : Option (Nat → Bool))
    (pos₀ length : Nat) : adjust_result :=
  let block_size := i_blocksize bb
  let poff₀ := pos₀ % PAGE_SIZE
  let plen₀ := min (PAGE_SIZE - poff₀) length
  let first₀ := poff₀ >>> bb
  let last₀ := (poff₀ + plen₀ - 1) >>> bb
  let st :=
    match iop with
    | none => (pos₀, poff₀, plen₀, first₀, last₀)
    | some up =>
      let L := lead_run up first₀ (last₀ + 1 - first₀)
      let pos₁ := pos₀ + L * block_size
      let poff₁ := poff₀ + L * block_size
      let plen₁ := plen₀ - L * block_size
      let first₁ := first₀ + L
      match first_set up first₁ (last₀ + 1 - first₁) with
      | some j => (pos₁, poff₁, plen₁ - (last₀ - j + 1) * block_size, first₁, j - 1)
      | none => (pos₁, poff₁, plen₁, first₁, last₀)
  match st with
  | (pos, poff, plen, first, last) =>
    let plen :=
      if pos₀ ≤ isize ∧ isize < pos₀ + length then
        let e := ((isize - 1) % PAGE_SIZE) >>> bb
        if first ≤ e ∧ e < last then plen - (last - e) * block_size else plen
      else plen
    ⟨pos, poff, plen⟩

/-- The `for (i = 0; i < PAGE_SIZE / i_blocksize(inode); i++)` loop of
`iomap_set_range_uptodate`, processing block indices `0 ≤ i < n` in order:
sets the bit of every block in `[first, last]` and conjoins, for each block
outside that interval, whether its bit was already set.  Returns the new
bitmap and the accumulated `uptodate` boolean. -/
def set_range_scan (up : Nat → Bool) (first last : Nat) : Nat → (Nat → Bool) × Bool
  | 0 => (up, true)
  | n + 1 =>
    let t := set_range_scan up first last n
    if first ≤ n ∧ n ≤ last then (fun i => if i = n then true else t.1 i, t.2)
    else (t.1, t.2 && t.1 n)

/-- `iomap_set_range_uptodate(page, off, len)`: set the uptodate bits of the
blocks covered by `[off, off + len)`; if every bit of the page ends up set
and the page carries no error flag, mark the whole page uptodate.  Returns
the updated page and whether `SetPageUptodate` was performed. -/
def iomap_set_range_uptodate (bb : Nat) (pg : page) (off len : Nat) : page × Bool :=
  let first := off >>> bb
  let last := (off + len - 1) >>> bb
  match pg.iop with
  | some s =>
    let t := set_range_scan s.uptodate first last (PAGE_SIZE / i_blocksize bb)
    let marked := t.2 && !pg.error
    ({ pg with iop := some { s with uptodate := t.1 },
               uptodate := pg.uptodate || marked }, marked)
  | none =>
    let marked := !pg.error
    ({ pg with uptodate := pg.uptodate || marked }, marked)

/-- `iomap_read_finish(iop, page)`: if there is no per-page state, or the
atomic decrement of `read_count` reaches zero, the page is unlocked.
Returns the updated state and whether `unlock_page` ran. -/
def iomap_read_finish (iop : Option iomap_page) : Option iomap_page × Bool :=
  match iop with
  | none => (none, true)
  | some s =>
    let s' := { s with read_count := s.read_count - 1 }
    (some s', s'.read_count == 0)

/-- `iomap_read_page_end_io(bvec, error)` for one completed sub-range
`[off, off + len)` of the page: on error set the page error flag and clear
uptodate, on success mark the sub-range uptodate; then run
`iomap_read_finish`.  Returns the updated page and whether the page was
unlocked by this completion. -/
def iomap_read_page_end (bb : Nat) (off len : Nat) (err : Bool) (pg : page) :
    page × Bool :=
  let pg₁ :=
    if err then { pg with uptodate := false, error := true }
    else (iomap_set_range_uptodate bb pg off len).1
  let t := iomap_read_finish pg₁.iop
  ({ pg₁ with iop := t.1, locked := if t.2 then false else pg₁.locked }, t.2)

/-- Driver for the asynchronous read-completion path: run
`iomap_read_page_end` once per completed sub-range, in the order given by
the list (the claims quantify over every such order), counting how many
of the completions unlocked the page. -/
def run_read_completions (bb : Nat) (pg : page) :
    List (Nat × Nat × Bool) → page × Nat
  | [] => (pg, 0)
  | (off, len, err) :: rest =>
    let t := iomap_read_page_end bb off len err pg
    let t' := run_read_completions bb t.1 rest
    (t'.1, (if t.2 then 1 else 0) + t'.2)

/-- `__iomap_write_end(inode, pos, len, copied, page)`: a short copy
(`copied < len`) into a page that is not fully uptodate is turned into a
zero-length write and the page is left untouched; otherwise the written
range is marked uptodate and the page dirtied (`iomap_set_page_dirty`).
Returns the byte count reported to the caller and the updated page. -/
def __iomap_write_end (bb : Nat) (pos len copied : Nat) (pg : page) : Nat × page :=
  if copied < len ∧ pg.uptodate = false then (0, pg)
  else
    let pg₁ := (iomap_set_range_uptodate bb pg (pos % PAGE_SIZE) len).1
    (copied, { pg₁ with dirty := true })

/-- `struct iomap_ioend`: a contiguous run of same-type blocks queued for
writeback.  The chained bio list is represented by the completion status of
`io_bio` (`io_bio->bi_status`), its current end sector
(`bio_end_sector(io_bio)`) and its bvec count; `io_private` holds the
filesystem's opaque per-ioend data. -/
structure iomap_ioend where
  io_type : Nat
  io_flags : Nat
  io_offset : Nat
  io_size : Nat
  io_bio_status : Nat
  io_bio_end_sector : Nat
  io_bio_nvecs : Nat
  io_private : Option Nat
deriving Repr, DecidableEq

/-- `iomap_ioend_can_merge(ioend, next)`: two adjacent ioends can be merged
when they have the same set of work to do. -/
def iomap_ioend_can_merge (ioend next : iomap_ioend) : Bool :=
  if ioend.io_bio_status ≠ next.io_bio_status then false
  else if (ioend.io_flags &&& IOMAP_F_SHARED) ^^^ (next.io_flags &&& IOMAP_F_SHARED) ≠ 0 then false
  else if (ioend.io_type == IOMAP_UNWRITTEN) ^^ (next.io_type == IOMAP_UNWRITTEN) then false
  else if ioend.io_offset + ioend.io_size ≠ next.io_offset then false
  else true

/-- `iomap_ioend_try_merge(ioend, more_ioends, merge_private)`: pop ioends
off the head of `more_ioends` while they can merge with `ioend`, moving each
onto `ioend`'s merged list, adding its size, and combining the private data
through the optional `merge_private` callback (which only operates on the
`io_private` fields).  Returns the grown ioend, the list of absorbed ioends
and the ioends left unmerged. -/
def iomap_ioend_try_merge (mp : Option (Nat → Nat → Nat)) (ioend : iomap_ioend) :
    List iomap_ioend → iomap_ioend × List iomap_ioend × List iomap_ioend
  | [] => (ioend, [], [])
  | next :: rest =>
    if iomap_ioend_can_merge ioend next then
      let ioend₁ := { ioend with io_size := ioend.io_size + next.io_size }
      let ioend₂ :=
        match next.io_private, mp with
        | some p, some f =>
          { ioend₁ with io_private := some (f (ioend₁.io_private.getD 0) p) }
        | _, _ => ioend₁
      let t := iomap_ioend_try_merge mp ioend₂ rest
      (t.1, next :: t.2.1, t.2.2)
    else (ioend, [], next :: rest)

/-- `iomap_block_needs_zeroing(inode, iomap, pos)`: the range at `pos` is
logically zero — not a mapped extent, freshly allocated, or at/after EOF. -/
def iomap_block_needs_zeroing (isize : Nat) (m : iomap) (pos : Nat) : Bool :=
  m.type != IOMAP_MAPPED || (m.flags &&& IOMAP_F_NEW) != 0 || decide (isize ≤ pos)

/-! ## Write path: `__iomap_write_begin` and its synchronous pre-read -/

/-- The observable device/page effects of the write-begin pre-read path:
`read_sync` is the synchronous `submit_bio_wait` read of the sub-range
`[poff, poff + plen)` (file offset `block_start`), `zero_segs` is the
`zero_user_segments` call zeroing `[poff, wfrom)` and `[wto, poff + plen)`
of a logically-zero sub-range. -/
inductive wb_op where
  | read_sync (block_start poff plen : Nat)
  | zero_segs (block_start poff wfrom wto plen : Nat)
deriving Repr, DecidableEq

/-- `iomap_read_page_sync(inode, block_start, page, poff, plen, from, to,
iomap)`: when the range is logically zero, zero the parts of
`[poff, poff + plen)` outside the write window `[from, to)` and mark the
whole sub-range uptodate; otherwise synchronously read the sub-range from
the device (`readFn` models `submit_bio_wait`, returning 0 or a negative
error; a plain read does not set any uptodate bits). -/
def iomap_read_page_sync (isize bb : Nat) (block_start : Nat) (pg : page)
    (poff plen wfrom wto : Nat) (m : iomap) (readFn : Nat → Nat → Int) :
    Int × page × List wb_op :=
  if iomap_block_needs_zeroing isize m block_start then
    let pg₁ := (iomap_set_range_uptodate bb pg poff plen).1
    (0, pg₁, [wb_op.zero_segs block_start poff wfrom wto plen])
  else
    (readFn block_start plen, pg, [wb_op.read_sync block_start poff plen])

/-- The `do { ... } while ((block_start += plen) < block_end)` loop of
`__iomap_write_begin`: repeatedly trim the next sub-range with
`iomap_adjust_read_range`; stop at an empty trim; if the trimmed sub-range
properly contains a boundary of the write window `[wfrom, wto)`,
synchronously read (or zero) it first, aborting on a read error. -/
def __iomap_write_begin_loop (isize bb : Nat) (m : iomap)
    (readFn : Nat → Nat → Int) (wfrom wto : Nat)
    (pg : page) (block_start block_end : Nat) : Int × page × List wb_op :=
  if h : block_start < block_end then
    let r := iomap_adjust_read_range isize bb (pg.iop.map (fun s => s.uptodate))
      block_start (block_end - block_start)
    if hl : r.len = 0 then (0, pg, [])
    else if (wfrom > r.off ∧ wfrom < r.off + r.len) ∨ (wto > r.off ∧ wto < r.off + r.len) then
      let t := iomap_read_page_sync isize bb r.pos pg r.off r.len wfrom wto m readFn
      if t.1 ≠ 0 then t
      else
        let t' := __iomap_write_begin_loop isize bb m readFn wfrom wto t.2.1
          (r.pos + r.len) block_end
        (t'.1, t'.2.1, t.2.2 ++ t'.2.2)
    else
      __iomap_write_begin_loop isize bb m readFn wfrom wto pg (r.pos + r.len) block_end
  else (0, pg, [])
termination_by block_end - block_start
decreasing_by
  all_goals
    have hp : block_start ≤ (iomap_adjust_read_range isize bb
        (pg.iop.map (fun s => s.uptodate)) block_start (block_end - block_start)).pos := by
      unfold iomap_adjust_read_range
      cases pg.iop.map (fun s => s.uptodate) with
      | none => simp
      | some u =>
        simp only
        split <;> simp
    have hl' : (iomap_adjust_read_range isize bb (pg.iop.map (fun s => s.uptodate))
        block_start (block_end - block_start)).len ≠ 0 := hl
    omega

/-- `__iomap_write_begin(inode, pos, len, page, iomap)`: create the
per-page state, and for each non-uptodate sub-range of the block-aligned
hull of the write window, pre-read it synchronously when it properly
contains a window boundary, so bytes outside the window are valid before
the copy phase.  A fully uptodate page needs nothing. -/
def __iomap_write_begin (isize bb : Nat) (pos len : Nat) (pg₀ : page)
    (m : iomap) (readFn : Nat → Nat → Int) : Int × page × List wb_op :=
  let pg := iomap_page_create bb pg₀
  let block_size := i_blocksize bb
  let block_start := pos / block_size * block_size
  let block_end := (pos + len + block_size - 1) / block_size * block_size
  let wfrom := pos % PAGE_SIZE
  let wto := wfrom + len
  if pg.uptodate then (0, pg, [])
  else __iomap_write_begin_loop isize bb m readFn wfrom wto pg block_start block_end

/-! ## Zeroing path: `iomap_zero_range` -/

/-- The page-cache/device effects of the zeroing path: `page_zero` is one
`iomap_zero` call (write_begin, in-memory zero of `bytes` bytes at `offset`
in the page, write_end); `dax_zero` the DAX variant. -/
inductive zero_op where
  | page_zero (pos offset bytes : Nat)
  | dax_zero (pos offset bytes : Nat)
deriving Repr, DecidableEq

/-- The per-page `do { ... } while (count > 0)` loop of
`iomap_zero_range_actor` for a mapped extent; `zeroFn`/`daxFn` model
`iomap_zero`/`iomap_dax_zero` (the status they return), and each call is
recorded as an operation.  Returns the written byte count (or the first
negative status) and the `did_zero` flag. -/
def iomap_zero_loop (isDax : Bool) (zeroFn daxFn : Nat → Nat → Nat → iomap → Int)
    (m : iomap) (pos count : Nat) (dz : Bool) : Int × List zero_op × Bool :=
  let offset := pos % PAGE_SIZE
  let bytes := min (PAGE_SIZE - offset) count
  let status := if isDax then daxFn pos offset bytes m else zeroFn pos offset bytes m
  let op := if isDax then zero_op.dax_zero pos offset bytes else zero_op.page_zero pos offset bytes
  if status < 0 then (status, [op], dz)
  else if h : 0 < count - bytes then
    let t := iomap_zero_loop isDax zeroFn daxFn m (pos + bytes) (count - bytes) true
    (if t.1 < 0 then t.1 else t.1 + (bytes : Int), op :: t.2.1, t.2.2)
  else ((bytes : Int), [op], true)
termination_by count
decreasing_by
  have h1 : pos % PAGE_SIZE < PAGE_SIZE := Nat.mod_lt _ (by decide)
  have h' : 0 < count - min (PAGE_SIZE - pos % PAGE_SIZE) count := h
  omega

/-- `iomap_zero_range_actor` (without the surrounding apply plumbing): a
`Hole`/`Unwritten` extent is already zero, so report the whole count as
done with no operation at all; otherwise zero page by page. -/
def iomap_zero_range_actor (isDax : Bool)
    (zeroFn daxFn : Nat → Nat → Nat → iomap → Int)
    (pos count : Nat) (m : iomap) (dz : Bool) : Int × List zero_op × Bool :=
  if m.type = IOMAP_HOLE ∨ m.type = IOMAP_UNWRITTEN then ((count : Int), [], dz)
  else iomap_zero_loop isDax zeroFn daxFn m pos count dz

/-- Modelled from the spec: the RangeApplicator step (`iomap_apply` lives in
fs/iomap/apply.c, which is not part of the sources here).  Per §4.1 of the
spec it asks the ExtentMapper for the extent covering `pos` and invokes the
actor with `min(length, extentRemaining)` bytes of it; the iteration over
successive extents is the loop in each caller. -/
def iomap_apply {α : Type} (mapper : Nat → Nat → iomap) (pos length : Nat)
    (actor : Nat → Nat → iomap → α) : α :=
  let m := mapper pos length
  actor pos (min length (m.offset + m.length - pos)) m

/-- `iomap_zero_range(inode, pos, len, did_zero, ops)`: walk the extents of
`[pos, pos + len)` through the applicator, running the zeroing actor on
each; stop and propagate any non-positive actor result, otherwise return 0
once the whole range is processed. -/
def iomap_zero_range (mapper : Nat → Nat → iomap) (isDax : Bool)
    (zeroFn daxFn : Nat → Nat → Nat → iomap → Int)
    (pos len : Nat) (dz : Bool) : Int × List zero_op × Bool :=
  if h : len = 0 then (0, [], dz)
  else
    let t := iomap_apply mapper pos len
      (fun p c mm => iomap_zero_range_actor isDax zeroFn daxFn p c mm dz)
    if hr : t.1 ≤ 0 then t
    else
      let t' := iomap_zero_range mapper isDax zeroFn daxFn (pos + t.1.toNat)
        (len - t.1.toNat) t.2.2
      (t'.1, t.2.1 ++ t'.2.1, t'.2.2)
termination_by len
decreasing_by
  have hr' : ¬((iomap_apply mapper pos len
      (fun p c mm => iomap_zero_range_actor isDax zeroFn daxFn p c mm dz)).1 ≤ 0) := hr
  omega

/-! ## Read path driver: `iomap_readpage` -/

/-- The `for (poff = 0; poff < PAGE_SIZE; poff += ret)` loop of
`iomap_readpage`.  `applyFn` gives the byte count (or error) produced by
`iomap_apply` with `iomap_readpage_actor` for the sub-range starting at
`poff` — the claim quantifies over every such behaviour, including mapping
failures.  A non-positive result sets the page error flag and stops the
walk; the final unconditional `return 0` is in `iomap_readpage` below (the
trailing bio submission/unlock hand-off carries no return value and is part
of the asynchronous completion model). -/
def iomap_readpage_loop (applyFn : Nat → Int) (pg : page) (poff : Nat) : page :=
  if h : poff < PAGE_SIZE then
    if hr : applyFn poff ≤ 0 then { pg with error := true }
    else iomap_readpage_loop applyFn pg (poff + (applyFn poff).toNat)
  else pg
termination_by PAGE_SIZE - poff
decreasing_by
  omega

/-- `iomap_readpage(page, ops)`: run the per-page apply loop and, like
`mpage_readpages` and `block_read_full_page`, always return 0, reporting
failures only through the page error flag. -/
def iomap_readpage (applyFn : Nat → Int) (pg : page) : Int × page :=
  (0, iomap_readpage_loop applyFn pg 0)

/-! ## Writeback engine: `iomap_writepage_map` -/

/-- `iomap_sector(iomap, pos)` (include/linux/iomap.h): the device sector
holding the file byte `pos` of an extent — the extent's device byte
address plus the byte distance from the extent start, in sector units. -/
def iomap_sector (m : iomap) (pos : Nat) : Nat :=
  (m.addr + (pos - m.offset)) >>> SECTOR_SHIFT

/-- `struct iomap_writepage_ctx`: the most recently resolved extent and the
ioend currently being filled. -/
structure writepage_ctx where
  iomap : iomap
  ioend : Option iomap_ioend
deriving Repr, DecidableEq

/-- `bio_full(bio, len)`: no bvec slot left. -/
def bio_full (nvecs maxvecs : Nat) : Bool := decide (maxvecs ≤ nvecs)

/-- `iomap_alloc_ioend`: a fresh ioend for the current extent, starting at
`offset`, with an empty bio aimed at `sector`. -/
def iomap_alloc_ioend (m : iomap) (offset sector : Nat) : iomap_ioend :=
  { io_type := m.type, io_flags := m.flags, io_offset := offset, io_size := 0,
    io_bio_status := 0, io_bio_end_sector := sector, io_bio_nvecs := 0,
    io_private := none }

/-- `iomap_add_to_ioend(inode, offset, page, iop, wpc, wbc, iolist)`: append
one block at `offset` to the cached ioend if the shared flag, the extent
type, the device sector and the file offset all continue it; otherwise move
the cached ioend onto `iolist` (at the head, as `list_add` does) and open a
fresh one.  `__bio_try_merge_page` succeeds — within the same page — exactly
when the current bio already has a segment, because every segment a
writepage bio gets from this page is byte-contiguous with the previous one
(the offset check above); `write_count` is raised only when a new bio
segment is started (`!same_page`), and a full bio is chained
(`iomap_chain_bio`, which keeps the end sector and empties the bvec list).
Returns the new context, the submit list and whether `write_count` was
incremented. -/
def iomap_add_to_ioend (bb maxvecs : Nat) (offset : Nat) (iop_present : Bool)
    (wpc : writepage_ctx) (iolist : List iomap_ioend) :
    writepage_ctx × List iomap_ioend × Bool :=
  let sector := iomap_sector wpc.iomap offset
  let len := i_blocksize bb
  let t :=
    match wpc.ioend with
    | none => (iomap_alloc_ioend wpc.iomap offset sector, iolist)
    | some io =>
      if (wpc.iomap.flags &&& IOMAP_F_SHARED) ≠ (io.io_flags &&& IOMAP_F_SHARED)
          ∨ wpc.iomap.type ≠ io.io_type
          ∨ sector ≠ io.io_bio_end_sector
          ∨ offset ≠ io.io_offset + io.io_size then
        (iomap_alloc_ioend wpc.iomap offset sector, io :: iolist)
      else (io, iolist)
  let io := t.1
  let iolist := t.2
  let merged := decide (0 < io.io_bio_nvecs)
  let same_page := merged
  let wc_inc := iop_present && !same_page
  let io :=
    if merged then io
    else
      let io := if bio_full io.io_bio_nvecs maxvecs then { io with io_bio_nvecs := 0 } else io
      { io with io_bio_nvecs := io.io_bio_nvecs + 1 }
  let io := { io with io_size := io.io_size + len,
                      io_bio_end_sector := io.io_bio_end_sector + (len >>> SECTOR_SHIFT) }
  ({ wpc with ioend := some io }, iolist, wc_inc)

/-- The block-scanning loop of `iomap_writepage_map`: walk block indices `i`
(first argument is the remaining fuel `PAGE_SIZE >> blkbits - i`) while
`file_offset < end_offset`; skip blocks whose uptodate bit is clear; resolve
each remaining block's extent through `map_blocks` (which yields an error
code and the new `wpc->iomap`), stopping at the first error; skip `Inline`
(warned) and `Hole` extents; queue everything else with
`iomap_add_to_ioend`, counting queued blocks and `write_count` increments. -/
def iomap_writepage_map_loop (bb maxvecs : Nat) (mapb : Nat → Int × iomap)
    (up : Option (Nat → Bool)) (page_off end_off : Nat) :
    Nat → Nat → writepage_ctx → List iomap_ioend → Nat → Nat →
    Int × writepage_ctx × List iomap_ioend × Nat × Nat
  | 0, _, wpc, iolist, count, wc => (0, wpc, iolist, count, wc)
  | fuel + 1, i, wpc, iolist, count, wc =>
    if page_off + i * i_blocksize bb < end_off then
      if (match up with | some u => !u i | none => false) then
        iomap_writepage_map_loop bb maxvecs mapb up page_off end_off fuel (i + 1)
          wpc iolist count wc
      else
        let em := mapb (page_off + i * i_blocksize bb)
        if em.1 ≠ 0 then (em.1, wpc, iolist, count, wc)
        else
          let wpc := { wpc with iomap := em.2 }
          if em.2.type = IOMAP_INLINE ∨ em.2.type = IOMAP_HOLE then
            iomap_writepage_map_loop bb maxvecs mapb up page_off end_off fuel (i + 1)
              wpc iolist count wc
          else
            let t := iomap_add_to_ioend bb maxvecs (page_off + i * i_blocksize bb)
              up.isSome wpc iolist
            iomap_writepage_map_loop bb maxvecs mapb up page_off end_off fuel (i + 1)
              t.1 t.2.1 (count + 1) (wc + if t.2.2 then 1 else 0)
    else (0, wpc, iolist, count, wc)

/-- The page/mapping effects of `iomap_writepage_map` after the scan:
the discard hook, the page flag changes, one `submit` per ioend handed to
`iomap_submit_ioend` (with whether that submission was failed via
`bio_endio` instead of reaching the device), and `end_page_writeback`. -/
inductive pg_op where
  | discard_page
  | clear_uptodate
  | unlock
  | set_writeback
  | set_writeback_keepwrite
  | clear_dirty
  | submit (off size : Nat) (failed : Bool)
  | end_writeback
deriving Repr, DecidableEq

/-- `iomap_submit_ioend(wpc, ioend, error)`: give the filesystem's optional
`submit_ioend` hook a chance to override the error; on a (possibly
overridden) error, mark the ioend's bio with it and complete it immediately
via `bio_endio` instead of submitting — completion bookkeeping still runs —
returning the error; otherwise submit the bio and return 0. -/
def iomap_submit_ioend (hook : Option (iomap_ioend → Int → Int))
    (io : iomap_ioend) (error : Int) : Int × pg_op :=
  let error := match hook with | some f => f io error | none => error
  if error ≠ 0 then (error, pg_op.submit io.io_offset io.io_size true)
  else (0, pg_op.submit io.io_offset io.io_size false)

/-- The `list_for_each_entry_safe` submission loop of
`iomap_writepage_map`: submit every queued ioend, preserving the original
error if there was one and otherwise catching the first submission error. -/
def submit_ioends (hook : Option (iomap_ioend → Int → Int)) :
    List iomap_ioend → Int → Int × List pg_op
  | [], error => (error, [])
  | io :: rest, error =>
    let t := iomap_submit_ioend hook io error
    let error := if t.1 ≠ 0 ∧ error = 0 then t.1 else error
    let t' := submit_ioends hook rest error
    (t'.1, t.2 :: t'.2)

/-- `iomap_writepage_map(wpc, wbc, inode, page, end_offset)`: scan the
page's blocks into ioends; on an error with nothing queued, discard the
page (optional hook), clear its uptodate flag and unlock it without marking
it under writeback; on an error after something was queued, still mark the
page under writeback (`set_page_writeback_keepwrite`) so completion
bookkeeping stays correct; on success clear dirty and mark under writeback;
then unlock and pass every queued ioend to `iomap_submit_ioend`,
propagating a first submission error, ending writeback at once when nothing
was queued, and recording any error on the mapping
(`mapping_set_error`). Returns the error, the updated page and context, the
operations performed, and the mapping's recorded error.

`iomap_writepage_scan` is the block-scanning phase (the `for` loop over the
page's blocks), producing the scan's error code, the updated context, the
local submit list, the queued-block count and the `write_count` delta. -/
def iomap_writepage_scan (bb maxvecs : Nat) (mapb : Nat → Int × iomap)
    (pg : page) (page_off end_off : Nat) (wpc : writepage_ctx) :
    Int × writepage_ctx × List iomap_ioend × Nat × Nat :=
  iomap_writepage_map_loop bb maxvecs mapb (pg.iop.map (fun x => x.uptodate))
    page_off end_off (PAGE_SIZE >>> bb) 0 wpc [] 0 0

/-- The error-handling tail of `iomap_writepage_map` (see above). -/
def iomap_writepage_map (bb maxvecs : Nat) (mapb : Nat → Int × iomap)
    (hook : Option (iomap_ioend → Int → Int)) (has_discard : Bool)
    (pg : page) (page_off end_off : Nat) (wpc : writepage_ctx) (map_err : Int) :
    Int × page × writepage_ctx × List pg_op × Int :=
  let s := iomap_writepage_scan bb maxvecs mapb pg page_off end_off wpc
  let error := s.1
  let wpc := s.2.1
  let submit_list := s.2.2.1
  let count := s.2.2.2.1
  let wc := s.2.2.2.2
  let pg := match pg.iop with
    | some x => { pg with iop := some { x with write_count := x.write_count + wc } }
    | none => pg
  if error ≠ 0 ∧ count = 0 then
    let ops := (if has_discard then [pg_op.discard_page] else []) ++
      [pg_op.clear_uptodate, pg_op.unlock]
    (error, { pg with uptodate := false, locked := false }, wpc, ops, error)
  else
    let pgops :=
      if error ≠ 0 then
        ({ pg with writeback := true, locked := false },
          [pg_op.set_writeback_keepwrite, pg_op.unlock])
      else
        ({ pg with dirty := false, writeback := true, locked := false },
          [pg_op.clear_dirty, pg_op.set_writeback, pg_op.unlock])
    let t := submit_ioends hook submit_list error
    let pgops' :=
      if count = 0 then ({ pgops.1 with writeback := false }, [pg_op.end_writeback])
      else (pgops.1, ([] : List pg_op))
    (t.1, pgops'.1, wpc, pgops.2 ++ t.2 ++ pgops'.2,
      if t.1 ≠ 0 then t.1 else map_err)

/-- The byte range an operation of the write-begin pre-read path touches:
`wb_op_covers op a b` says the operation's sub-range covers all bytes of
`[a, b)` (absolute file offsets). -/
def wb_op_covers (op : wb_op) (a b : Nat) : Prop :=
  match op with
  | wb_op.read_sync bs₀ _ plen => bs₀ ≤ a ∧ b ≤ bs₀ + plen
  | wb_op.zero_segs bs₀ _ _ _ plen => bs₀ ≤ a ∧ b ≤ bs₀ + plen

/-- An operation of the write-begin pre-read path properly contains a
boundary of the (page-relative) write window `[wfrom, wto)` in its
page-relative sub-range — the condition under which `__iomap_write_begin`
issues it. -/
def wb_op_boundary (op : wb_op) (wfrom wto : Nat) : Prop :=
  match op with
  | wb_op.read_sync _ poff plen =>
      (poff < wfrom ∧ wfrom < poff + plen) ∨ (poff < wto ∧ wto < poff + plen)
  | wb_op.zero_segs _ poff _ _ plen =>
      (poff < wfrom ∧ wfrom < poff + plen) ∨ (poff < wto ∧ wto < poff + plen)

/-! ## General lemmas about the embedded operations -/

/-- Concrete pages/states used to instantiate theorems with hypotheses. -/
def test_page : page := ⟨false, false, false, true, false, none⟩

/-- A page with a zeroed sub-block bitmap and `read_count = 2`. -/
def test_page_rc2 : page := ⟨false, false, false, true, false, some ⟨fun _ => false, 2, 0⟩⟩

/-- An `iomap` extent: mapped, no flags, covering `[0, 1000000)`. -/
def wbt_map : iomap := ⟨IOMAP_MAPPED, 0, 0, 1000000, 0⟩

/-- A device read that always succeeds. -/
def wbt_read : Nat → Nat → Int := fun _ _ => 0

theorem shared_bit_cases (x : Nat) :
    x &&& IOMAP_F_SHARED = 0 ∨ x &&& IOMAP_F_SHARED = 4 := by
  have h := Nat.and_two_pow x 2
  have h4 : (4 : Nat) = 2 ^ 2 := by norm_num
  rw [IOMAP_F_SHARED, h4]
  cases hx : x.testBit 2 <;> rw [hx] at h <;> simp at h <;> simp [h]

theorem set_range_scan_fst (up : Nat → Bool) (first last : Nat) :
    ∀ n i, (set_range_scan up first last n).1 i =
      if i < n ∧ first ≤ i ∧ i ≤ last then true else up i := by
  intro n
  induction n with
  | zero => intro i; simp [set_range_scan]
  | succ n ih =>
    intro i
    simp only [set_range_scan]
    by_cases h1 : first ≤ n ∧ n ≤ last
    · simp only [if_pos h1]
      by_cases h2 : i = n
      · subst h2
        simp [h1.1, h1.2]
      · simp only [h2, if_false, if_neg h2]
        rw [ih]
        have hc : (i < n ∧ first ≤ i ∧ i ≤ last) ↔ (i < n + 1 ∧ first ≤ i ∧ i ≤ last) := by
          omega
        simp [hc]
    · simp only [if_neg h1]
      rw [ih]
      have hc : (i < n ∧ first ≤ i ∧ i ≤ last) ↔ (i < n + 1 ∧ first ≤ i ∧ i ≤ last) := by
        omega
      simp [hc]

theorem set_range_scan_snd (up : Nat → Bool) (first last : Nat) :
    ∀ n, (set_range_scan up first last n).2 = true ↔
      (∀ i, i < n → (first ≤ i ∧ i ≤ last) ∨ up i = true) := by
  intro n
  induction n with
  | zero => simp [set_range_scan]
  | succ n ih =>
    simp only [set_range_scan]
    have hfst : (set_range_scan up first last n).1 n = up n := by
      rw [set_range_scan_fst]
      simp
    by_cases h1 : first ≤ n ∧ n ≤ last
    · simp only [if_pos h1, ih]
      constructor
      · intro h i hi
        rcases Nat.lt_succ_iff_lt_or_eq.mp hi with hi | hi
        · exact h i hi
        · subst hi; exact Or.inl h1
      · intro h i hi; exact h i (Nat.lt_succ_of_lt hi)
    · simp only [if_neg h1, Bool.and_eq_true, ih, hfst]
      constructor
      · rintro ⟨h, hn⟩ i hi
        rcases Nat.lt_succ_iff_lt_or_eq.mp hi with hi | hi
        · exact h i hi
        · subst hi; exact Or.inr hn
      · intro h
        refine ⟨fun i hi => h i (Nat.lt_succ_of_lt hi), ?_⟩
        rcases h n (Nat.lt_succ_self n) with h' | h'
        · exact absurd h' h1
        · exact h'

theorem read_finish_some (s : iomap_page) :
    iomap_read_finish (some s) =
      (some { s with read_count := s.read_count - 1 }, (s.read_count - 1 == 0)) := by
  simp [iomap_read_finish]

theorem read_page_end_step (bb off len : Nat) (err : Bool) (pg : page)
    (s : iomap_page) (hiop : pg.iop = some s) :
    ∃ s₁, (iomap_read_page_end bb off len err pg).1.iop = some s₁ ∧
      s₁.read_count = s.read_count - 1 ∧
      (iomap_read_page_end bb off len err pg).2 = (s.read_count - 1 == 0) ∧
      (s.read_count - 1 ≠ 0 →
        (iomap_read_page_end bb off len err pg).1.locked = pg.locked) ∧
      (s.read_count - 1 = 0 →
        (iomap_read_page_end bb off len err pg).1.locked = false) := by
  cases err with
  | true =>
    refine ⟨{ s with read_count := s.read_count - 1 }, ?_, rfl, ?_, ?_, ?_⟩
    · simp [iomap_read_page_end, hiop, read_finish_some]
    · simp [iomap_read_page_end, hiop, read_finish_some]
    · intro hne
      have hb : (s.read_count - 1 == 0) = false := by simpa using hne
      simp [iomap_read_page_end, hiop, read_finish_some, hb]
    · intro he
      have hb : (s.read_count - 1 == 0) = true := by simpa using he
      simp [iomap_read_page_end, hiop, read_finish_some, hb]
  | false =>
    refine ⟨{ s with
        uptodate := (set_range_scan s.uptodate (off >>> bb) ((off + len - 1) >>> bb)
          (PAGE_SIZE / i_blocksize bb)).1,
        read_count := s.read_count - 1 }, ?_, rfl, ?_, ?_, ?_⟩
    · simp [iomap_read_page_end, iomap_set_range_uptodate, hiop, read_finish_some]
    · simp [iomap_read_page_end, iomap_set_range_uptodate, hiop, read_finish_some]
    · intro hne
      have hb : (s.read_count - 1 == 0) = false := by simpa using hne
      simp [iomap_read_page_end, iomap_set_range_uptodate, hiop, read_finish_some, hb]
    · intro he
      have hb : (s.read_count - 1 == 0) = true := by simpa using he
      simp [iomap_read_page_end, iomap_set_range_uptodate, hiop, read_finish_some, hb]

theorem run_read_completions_once (bb : Nat) :
    ∀ (l : List (Nat × Nat × Bool)) (pg : page) (s : iomap_page),
      pg.iop = some s → s.read_count = l.length → 0 < l.length →
      (run_read_completions bb pg l).2 = 1 ∧
      (run_read_completions bb pg l).1.locked = false ∧
      (∃ s', (run_read_completions bb pg l).1.iop = some s' ∧ s'.read_count = 0) := by
  intro l
  induction l with
  | nil => intro pg s _ _ h3; simp at h3
  | cons hd rest ih =>
    rcases hd with ⟨off, len, err⟩
    intro pg s hiop hcount hpos
    obtain ⟨s₁, hiop₁, hcount₁, hu, hlock_ne, hlock_eq⟩ :=
      read_page_end_step bb off len err pg s hiop
    simp only [run_read_completions]
    cases rest with
    | nil =>
      have hc : s.read_count - 1 = 0 := by rw [hcount]; rfl
      have hb : (s.read_count - 1 == 0) = true := by simpa using hc
      refine ⟨?_, ?_, s₁, ?_, ?_⟩
      · simp [run_read_completions, hu, hb]
      · simp [run_read_completions, hlock_eq hc]
      · simp [run_read_completions, hiop₁]
      · omega
    | cons hd' rest' =>
      have hc : s.read_count - 1 ≠ 0 := by rw [hcount]; simp
      have hb : (s.read_count - 1 == 0) = false := by simpa using hc
      have ihres := ih (iomap_read_page_end bb off len err pg).1 s₁ hiop₁
        (by rw [hcount₁, hcount]; simp) (by simp only [List.length_cons]; omega)
      refine ⟨?_, ?_, ?_⟩
      · simp [hu, hb, ihres.1]
      · exact ihres.2.1
      · exact ihres.2.2

theorem readpage_loop_noerror (applyFn : Nat → Int) (pg : page)
    (h : ∀ off, 0 < applyFn off) :
    ∀ n poff, PAGE_SIZE - poff ≤ n → iomap_readpage_loop applyFn pg poff = pg := by
  intro n
  induction n with
  | zero =>
    intro poff hle
    unfold iomap_readpage_loop
    rw [dif_neg (by omega)]
  | succ n ih =>
    intro poff hle
    unfold iomap_readpage_loop
    by_cases hp : poff < PAGE_SIZE
    · rw [dif_pos hp]
      have hr := h poff
      rw [dif_neg (by omega)]
      refine ih (poff + (applyFn poff).toNat) ?_
      have h1 : 1 ≤ (applyFn poff).toNat := by omega
      omega
    · rw [dif_neg hp]

theorem readpage_loop_err (applyFn : Nat → Int) (pg : page) (h : applyFn 0 ≤ 0) :
    (iomap_readpage_loop applyFn pg 0).error = true := by
  unfold iomap_readpage_loop
  rw [dif_pos (by norm_num [PAGE_SIZE]), dif_pos h]

/-! ## C1: ioend mergeability and merging -/

/-- **C1 (counterexample).** Two ioends whose flag words differ (the first
carries `IOMAP_F_NEW`, the second carries no flags) but agree on the
`IOMAP_F_SHARED` bit, with equal bio status, equal (non-Unwritten) type and
contiguous byte ranges, are reported mergeable by `iomap_ioend_can_merge` —
so "mergeable iff the flags are equal" is false: only the `IOMAP_F_SHARED`
bit of the flags is compared. -/
theorem iomap_ioend_can_merge_ignores_nonshared_flags :
    iomap_ioend_can_merge ⟨IOMAP_MAPPED, IOMAP_F_NEW, 0, 4096, 0, 8, 1, none⟩
        ⟨IOMAP_MAPPED, 0, 4096, 4096, 0, 16, 1, none⟩ = true ∧
    (⟨IOMAP_MAPPED, IOMAP_F_NEW, 0, 4096, 0, 8, 1, none⟩ : iomap_ioend).io_flags ≠
      (⟨IOMAP_MAPPED, 0, 4096, 4096, 0, 16, 1, none⟩ : iomap_ioend).io_flags := by
  decide

/-- **C1 (amended).** `iomap_ioend_can_merge` returns true exactly when the
bio statuses are equal, the two ioends agree on the `IOMAP_F_SHARED` flag
bit (not necessarily on the whole flags word), they agree on whether their
type is `IOMAP_UNWRITTEN`, and the first ioend's offset plus size equals the
second's offset; and a successful merge adds the successor's size to the
first ioend, leaving its offset alone, so that the merged ioend covers
exactly the union of the two byte ranges — which bytes are written is
unchanged. -/
theorem iomap_ioend_merge_characterization (a b : iomap_ioend)
    (mp : Option (Nat → Nat → Nat)) :
    (iomap_ioend_can_merge a b = true ↔
      (a.io_bio_status = b.io_bio_status ∧
       ((a.io_flags &&& IOMAP_F_SHARED ≠ 0) ↔ (b.io_flags &&& IOMAP_F_SHARED ≠ 0)) ∧
       ((a.io_type = IOMAP_UNWRITTEN) ↔ (b.io_type = IOMAP_UNWRITTEN)) ∧
       a.io_offset + a.io_size = b.io_offset)) ∧
    (iomap_ioend_can_merge a b = true →
      ((iomap_ioend_try_merge mp a [b]).1.io_offset = a.io_offset ∧
       (iomap_ioend_try_merge mp a [b]).1.io_size = a.io_size + b.io_size ∧
       (iomap_ioend_try_merge mp a [b]).2.2 = [] ∧
       (∀ x : Nat,
         ((iomap_ioend_try_merge mp a [b]).1.io_offset ≤ x ∧
           x < (iomap_ioend_try_merge mp a [b]).1.io_offset +
             (iomap_ioend_try_merge mp a [b]).1.io_size) ↔
         ((a.io_offset ≤ x ∧ x < a.io_offset + a.io_size) ∨
          (b.io_offset ≤ x ∧ x < b.io_offset + b.io_size))))) := by
  have ha := shared_bit_cases a.io_flags
  have hb := shared_bit_cases b.io_flags
  have hiff : iomap_ioend_can_merge a b = true ↔
      (a.io_bio_status = b.io_bio_status ∧
       ((a.io_flags &&& IOMAP_F_SHARED ≠ 0) ↔ (b.io_flags &&& IOMAP_F_SHARED ≠ 0)) ∧
       ((a.io_type = IOMAP_UNWRITTEN) ↔ (b.io_type = IOMAP_UNWRITTEN)) ∧
       a.io_offset + a.io_size = b.io_offset) := by
    unfold iomap_ioend_can_merge
    rcases ha with ha | ha <;> rcases hb with hb | hb <;>
      by_cases hu1 : a.io_type = IOMAP_UNWRITTEN <;>
      by_cases hu2 : b.io_type = IOMAP_UNWRITTEN <;>
      by_cases hs : a.io_bio_status = b.io_bio_status <;>
      by_cases ho : a.io_offset + a.io_size = b.io_offset <;>
      simp [ha, hb, hs, ho, hu1, hu2]
  refine ⟨hiff, ?_⟩
  intro h
  have hcontig : a.io_offset + a.io_size = b.io_offset := (hiff.mp h).2.2.2
  have hmerge : (iomap_ioend_try_merge mp a [b]).1.io_offset = a.io_offset ∧
      (iomap_ioend_try_merge mp a [b]).1.io_size = a.io_size + b.io_size ∧
      (iomap_ioend_try_merge mp a [b]).2.2 = [] := by
    unfold iomap_ioend_try_merge
    rw [if_pos h]
    cases hp : b.io_private <;> cases mp <;>
      simp [iomap_ioend_try_merge, hp]
  refine ⟨hmerge.1, hmerge.2.1, hmerge.2.2, ?_⟩
  intro x
  rw [hmerge.1, hmerge.2.1]
  omega

/-- **C1 (witness).** A concrete mergeable pair merged by
`iomap_ioend_try_merge`. -/
theorem iomap_ioend_merge_characterization_witness :
    iomap_ioend_can_merge ⟨IOMAP_MAPPED, 0, 0, 4096, 0, 8, 1, none⟩
        ⟨IOMAP_MAPPED, 0, 4096, 8192, 0, 24, 1, none⟩ = true ∧
    (iomap_ioend_try_merge none ⟨IOMAP_MAPPED, 0, 0, 4096, 0, 8, 1, none⟩
        [⟨IOMAP_MAPPED, 0, 4096, 8192, 0, 24, 1, none⟩]).1.io_size = 4096 + 8192 := by
  refine ⟨by decide, ?_⟩
  exact ((iomap_ioend_merge_characterization ⟨IOMAP_MAPPED, 0, 0, 4096, 0, 8, 1, none⟩
    ⟨IOMAP_MAPPED, 0, 4096, 8192, 0, 24, 1, none⟩ none).2 (by decide)).2.1

/-! ## C3: short copy into a non-uptodate page -/

/-- **C3.** If the copy phase transferred fewer bytes than requested
(`copied < len`) into a page that was not fully uptodate,
`__iomap_write_end` reports 0 bytes and leaves the page untouched — in
particular nothing is marked uptodate or dirty. -/
theorem iomap_write_end_short_copy_returns_zero (bb pos len copied : Nat)
    (pg : page) (h1 : copied < len) (h2 : pg.uptodate = false) :
    __iomap_write_end bb pos len copied pg = (0, pg) := by
  unfold __iomap_write_end
  rw [if_pos ⟨h1, h2⟩]

/-- **C3 (witness).** A concrete short copy: 3 of 8 bytes into a
non-uptodate page. -/
theorem iomap_write_end_short_copy_returns_zero_witness :
    3 < 8 ∧ test_page.uptodate = false ∧
    __iomap_write_end 9 0 8 3 test_page = (0, test_page) :=
  ⟨by decide, rfl, iomap_write_end_short_copy_returns_zero 9 0 8 3 test_page (by decide) rfl⟩

/-! ## C6: read completion unlocks the page exactly once -/

/-- **C6.** For a page whose read was split into `N = l.length` sub-range
completions (`read_count` of the page state equals `N`), running the
completions in any order unlocks the page exactly once (and leaves
`read_count` at zero); and each single completion unlocks the page iff its
decrement of `read_count` reaches zero. -/
theorem iomap_read_completion_unlocks_once (bb : Nat)
    (l : List (Nat × Nat × Bool)) (pg : page) (s : iomap_page)
    (hiop : pg.iop = some s) (hcount : s.read_count = l.length)
    (hpos : 0 < l.length) :
    (run_read_completions bb pg l).2 = 1 ∧
    (run_read_completions bb pg l).1.locked = false ∧
    (∃ s', (run_read_completions bb pg l).1.iop = some s' ∧ s'.read_count = 0) ∧
    (∀ (off len : Nat) (err : Bool) (pg' : page) (s' : iomap_page),
      pg'.iop = some s' →
      ((iomap_read_page_end bb off len err pg').2 = true ↔ s'.read_count - 1 = 0)) := by
  have hmain := run_read_completions_once bb l pg s hiop hcount hpos
  refine ⟨hmain.1, hmain.2.1, hmain.2.2, ?_⟩
  intro off len err pg' s' hiop'
  obtain ⟨s₁, _, _, hu, _, _⟩ := read_page_end_step bb off len err pg' s' hiop'
  rw [hu]
  simp

/-- **C6 (witness).** Two sub-range completions on a page with
`read_count = 2`: one unlock. -/
theorem iomap_read_completion_unlocks_once_witness :
    (run_read_completions 10 test_page_rc2 [(0, 2048, false), (2048, 2048, false)]).2 = 1 ∧
    (run_read_completions 10 test_page_rc2 [(0, 2048, false), (2048, 2048, false)]).1.locked
      = false :=
  ⟨(iomap_read_completion_unlocks_once 10 [(0, 2048, false), (2048, 2048, false)]
      test_page_rc2 ⟨fun _ => false, 2, 0⟩ rfl rfl (by decide)).1,
   (iomap_read_completion_unlocks_once 10 [(0, 2048, false), (2048, 2048, false)]
      test_page_rc2 ⟨fun _ => false, 2, 0⟩ rfl rfl (by decide)).2.1⟩

/-! ## C8: setRangeUptodate with a sub-block bitmap -/

/-- **C8.** With a sub-block bitmap, `iomap_set_range_uptodate` sets exactly
the bits of the blocks covered by `[off, off + len)` (every other bit is
unchanged), and performs `SetPageUptodate` iff after the setting every bit
covering the page is set and the page carries no error flag. -/
theorem iomap_set_range_uptodate_spec (bb : Nat) (pg : page) (s : iomap_page)
    (off len : Nat) (hiop : pg.iop = some s) :
    ∃ s', (iomap_set_range_uptodate bb pg off len).1.iop = some s' ∧
      (∀ i, i < PAGE_SIZE / i_blocksize bb →
        s'.uptodate i =
          (s.uptodate i || decide (off >>> bb ≤ i ∧ i ≤ (off + len - 1) >>> bb))) ∧
      (∀ i, PAGE_SIZE / i_blocksize bb ≤ i → s'.uptodate i = s.uptodate i) ∧
      ((iomap_set_range_uptodate bb pg off len).2 = true ↔
        ((∀ i, i < PAGE_SIZE / i_blocksize bb → s'.uptodate i = true) ∧
          pg.error = false)) := by
  refine ⟨{ s with uptodate :=
    (set_range_scan s.uptodate (off >>> bb) ((off + len - 1) >>> bb)
      (PAGE_SIZE / i_blocksize bb)).1 }, ?_, ?_, ?_, ?_⟩
  · simp [iomap_set_range_uptodate, hiop]
  · intro i hi
    simp only
    rw [set_range_scan_fst]
    by_cases hc : off >>> bb ≤ i ∧ i ≤ (off + len - 1) >>> bb
    · simp [hc, hi]
    · simp [hc]
  · intro i hi
    simp only
    rw [set_range_scan_fst]
    rw [if_neg (by omega)]
  · have hbits : ∀ i, i < PAGE_SIZE / i_blocksize bb →
        ((set_range_scan s.uptodate (off >>> bb) ((off + len - 1) >>> bb)
            (PAGE_SIZE / i_blocksize bb)).1 i = true ↔
          ((off >>> bb ≤ i ∧ i ≤ (off + len - 1) >>> bb) ∨ s.uptodate i = true)) := by
      intro i hi
      rw [set_range_scan_fst]
      by_cases hc : off >>> bb ≤ i ∧ i ≤ (off + len - 1) >>> bb <;> simp [hc, hi]
    simp only [iomap_set_range_uptodate, hiop]
    simp only [Bool.and_eq_true, Bool.not_eq_true']
    rw [set_range_scan_snd]
    constructor
    · rintro ⟨h, he⟩
      exact ⟨fun i hi => (hbits i hi).mpr (h i hi), he⟩
    · rintro ⟨h, he⟩
      exact ⟨fun i hi => (hbits i hi).mp (h i hi), he⟩

/-- **C8 (witness).** Setting the first kilobyte of a 4-block page whose
bitmap is clear. -/
theorem iomap_set_range_uptodate_spec_witness :
    ∃ s', (iomap_set_range_uptodate 10
      ⟨false, false, false, true, false, some ⟨fun _ => false, 0, 0⟩⟩ 0 1024).1.iop
        = some s' ∧
      (∀ i, i < PAGE_SIZE / i_blocksize 10 →
        s'.uptodate i =
          ((fun _ => false : Nat → Bool) i ||
            decide ((0 : Nat) >>> 10 ≤ i ∧ i ≤ (0 + 1024 - 1) >>> 10))) ∧
      (∀ i, PAGE_SIZE / i_blocksize 10 ≤ i →
        s'.uptodate i = (fun _ => false : Nat → Bool) i) ∧
      ((iomap_set_range_uptodate 10
        ⟨false, false, false, true, false, some ⟨fun _ => false, 0, 0⟩⟩ 0 1024).2 = true ↔
        ((∀ i, i < PAGE_SIZE / i_blocksize 10 → s'.uptodate i = true) ∧
          (⟨false, false, false, true, false, some ⟨fun _ => false, 0, 0⟩⟩ : page).error
            = false)) :=
  iomap_set_range_uptodate_spec 10
    ⟨false, false, false, true, false, some ⟨fun _ => false, 0, 0⟩⟩
    ⟨fun _ => false, 0, 0⟩ 0 1024 rfl

/-! ## C9: setRangeUptodate without a PageState -/

/-- **C9.** On a page with no `iomap_page` (block size equals page size), a
`iomap_set_range_uptodate` call for any sub-range — however partial — marks
the entire page uptodate, provided the page carries no error flag; with the
error flag set it does not. -/
theorem iomap_set_range_uptodate_no_iop_marks_page (bb : Nat) (pg : page)
    (off len : Nat) (h : pg.iop = none) :
    ((iomap_set_range_uptodate bb pg off len).2 = true ↔ pg.error = false) ∧
    (pg.error = false → (iomap_set_range_uptodate bb pg off len).1.uptodate = true) := by
  simp [iomap_set_range_uptodate, h]
  intro he
  simp [he]

/-- **C9 (witness).** A 7-byte sub-range of an error-free page without
per-page state marks the whole page uptodate. -/
theorem iomap_set_range_uptodate_no_iop_marks_page_witness :
    ((iomap_set_range_uptodate 12 test_page 100 7).2 = true ↔ test_page.error = false) ∧
    (iomap_set_range_uptodate 12 test_page 100 7).1.uptodate = true :=
  ⟨(iomap_set_range_uptodate_no_iop_marks_page 12 test_page 100 7 rfl).1,
   (iomap_set_range_uptodate_no_iop_marks_page 12 test_page 100 7 rfl).2 rfl⟩

/-! ## C10: iomap_readpage always returns 0 -/

/-- **C10.** `iomap_readpage` returns 0 for every behaviour of the apply
loop, including mapping failures; when every apply step succeeds the page is
untouched (in particular no error flag), and when the first apply step
fails the failure is reported only through the page error flag. -/
theorem iomap_readpage_always_zero (applyFn : Nat → Int) (pg : page) :
    (iomap_readpage applyFn pg).1 = 0 ∧
    ((∀ off, 0 < applyFn off) → (iomap_readpage applyFn pg).2 = pg) ∧
    (applyFn 0 ≤ 0 → (iomap_readpage applyFn pg).2.error = true) := by
  refine ⟨rfl, ?_, ?_⟩
  · intro h
    exact readpage_loop_noerror applyFn pg h PAGE_SIZE 0 (by omega)
  · intro h
    exact readpage_loop_err applyFn pg h

/-- **C10 (witness).** Return value 0 whether the mapping succeeds
everywhere or fails at once — the failure lands in the error flag. -/
theorem iomap_readpage_always_zero_witness :
    (iomap_readpage (fun _ => 4096) test_page).1 = 0 ∧
    (iomap_readpage (fun _ => (-5 : Int)) test_page).1 = 0 ∧
    (iomap_readpage (fun _ => (-5 : Int)) test_page).2.error = true :=
  ⟨(iomap_readpage_always_zero (fun _ => 4096) test_page).1,
   (iomap_readpage_always_zero (fun _ => (-5 : Int)) test_page).1,
   (iomap_readpage_always_zero (fun _ => (-5 : Int)) test_page).2.2 (by decide)⟩

/-! ## C4: zeroing holes and unwritten extents -/

theorem zero_range_all_holes (mapper : Nat → Nat → iomap) (isDax : Bool)
    (zeroFn daxFn : Nat → Nat → Nat → iomap → Int)
    (hm : ∀ p l, (mapper p l).type = IOMAP_HOLE ∨ (mapper p l).type = IOMAP_UNWRITTEN)
    (hc : ∀ p l, (mapper p l).offset ≤ p ∧ p < (mapper p l).offset + (mapper p l).length) :
    ∀ len pos dz, iomap_zero_range mapper isDax zeroFn daxFn pos len dz = (0, [], dz) := by
  intro len
  induction len using Nat.strong_induction_on with
  | _ len ih =>
    intro pos dz
    unfold iomap_zero_range
    by_cases h0 : len = 0
    · rw [dif_pos h0]
    · rw [dif_neg h0]
      have hm' := hm pos len
      have hc' := hc pos len
      have happ : iomap_apply mapper pos len
          (fun p c mm => iomap_zero_range_actor isDax zeroFn daxFn p c mm dz)
          = (((min len ((mapper pos len).offset + (mapper pos len).length - pos) : Nat) : Int),
             ([] : List zero_op), dz) := by
        unfold iomap_apply
        simp only
        unfold iomap_zero_range_actor
        rw [if_pos hm']
      have hcnt : 0 < min len ((mapper pos len).offset + (mapper pos len).length - pos) := by
        omega
      simp only [happ]
      rw [dif_neg (by omega)]
      simp only [Int.toNat_natCast]
      rw [ih _ (by omega)]
      simp

/-- **C4.** A `Hole` or `Unwritten` extent is already logically zero: the
zeroing actor performs no device I/O and no page-cache write for it (its
operation list is empty) yet reports the full count as zeroed; consequently
`iomap_zero_range` over a range whose extents are all holes or unwritten
performs no operation at all and returns success (0). -/
theorem iomap_zero_range_hole_unwritten_no_io (mapper : Nat → Nat → iomap)
    (isDax : Bool) (zeroFn daxFn : Nat → Nat → Nat → iomap → Int)
    (pos len : Nat) (dz : Bool)
    (hm : ∀ p l, (mapper p l).type = IOMAP_HOLE ∨ (mapper p l).type = IOMAP_UNWRITTEN)
    (hc : ∀ p l, (mapper p l).offset ≤ p ∧ p < (mapper p l).offset + (mapper p l).length) :
    (∀ (p c : Nat) (m : iomap) (d : Bool),
      m.type = IOMAP_HOLE ∨ m.type = IOMAP_UNWRITTEN →
      iomap_zero_range_actor isDax zeroFn daxFn p c m d = ((c : Int), [], d)) ∧
    iomap_zero_range mapper isDax zeroFn daxFn pos len dz = (0, [], dz) := by
  constructor
  · intro p c m d h
    unfold iomap_zero_range_actor
    rw [if_pos h]
  · exact zero_range_all_holes mapper isDax zeroFn daxFn hm hc len pos dz

/-- **C4 (witness).** Zeroing 10000 bytes over a mapper that always reports
an unwritten extent of 4096 bytes at the queried position: no operations,
result 0. -/
theorem iomap_zero_range_hole_unwritten_no_io_witness :
    iomap_zero_range_actor false (fun _ _ _ _ => 0) (fun _ _ _ _ => 0) 0 4096
      ⟨IOMAP_UNWRITTEN, 0, 0, 4096, 0⟩ false = ((4096 : Int), [], false) ∧
    iomap_zero_range (fun p _ => ⟨IOMAP_UNWRITTEN, 0, p, 4096, 0⟩) false
      (fun _ _ _ _ => 0) (fun _ _ _ _ => 0) 0 10000 false = (0, [], false) :=
  ⟨(iomap_zero_range_hole_unwritten_no_io (fun p _ => ⟨IOMAP_UNWRITTEN, 0, p, 4096, 0⟩)
      false (fun _ _ _ _ => 0) (fun _ _ _ _ => 0) 0 10000 false
      (fun _ _ => Or.inr rfl) (fun p _ => by constructor <;> simp)).1
      0 4096 ⟨IOMAP_UNWRITTEN, 0, 0, 4096, 0⟩ false (Or.inr rfl),
   (iomap_zero_range_hole_unwritten_no_io (fun p _ => ⟨IOMAP_UNWRITTEN, 0, p, 4096, 0⟩)
      false (fun _ _ _ _ => 0) (fun _ _ _ _ => 0) 0 10000 false
      (fun _ _ => Or.inr rfl) (fun p _ => by constructor <;> simp)).2⟩

/-! ## C5: writepage mapping failure paths -/

theorem submit_ioend_shape (hook : Option (iomap_ioend → Int → Int))
    (io : iomap_ioend) (e : Int) :
    ∃ b, (iomap_submit_ioend hook io e).2 = pg_op.submit io.io_offset io.io_size b := by
  cases hook with
  | none =>
    by_cases h : e ≠ 0
    · exact ⟨true, by simp [iomap_submit_ioend, h]⟩
    · exact ⟨false, by simp [iomap_submit_ioend, h]⟩
  | some f =>
    by_cases h : f io e ≠ 0
    · exact ⟨true, by simp [iomap_submit_ioend, h]⟩
    · exact ⟨false, by simp [iomap_submit_ioend, h]⟩

theorem submit_ioends_keep_error (hook : Option (iomap_ioend → Int → Int)) :
    ∀ (l : List iomap_ioend) (e : Int), e ≠ 0 → (submit_ioends hook l e).1 = e := by
  intro l
  induction l with
  | nil => intro e he; rfl
  | cons io rest ih =>
    intro e he
    simp only [submit_ioends]
    rw [if_neg (by intro h; exact he h.2)]
    exact ih e he

theorem submit_ioends_mem (hook : Option (iomap_ioend → Int → Int)) :
    ∀ (l : List iomap_ioend) (e : Int) (io : iomap_ioend), io ∈ l →
      ∃ b, pg_op.submit io.io_offset io.io_size b ∈ (submit_ioends hook l e).2 := by
  intro l
  induction l with
  | nil => intro e io h; cases h
  | cons hd rest ih =>
    intro e io h
    simp only [submit_ioends]
    rcases List.mem_cons.mp h with h | h
    · subst h
      obtain ⟨b, hb⟩ := submit_ioend_shape hook io e
      refine ⟨b, ?_⟩
      rw [← hb]
      exact List.mem_cons_self _ _
    · obtain ⟨b, hmem⟩ := ih _ io h
      exact ⟨b, List.mem_cons_of_mem _ hmem⟩

/-- **C5.** When extent resolution fails during `iomap_writepage_map`
(the scan's error is non-zero): with zero blocks queued the page is
discarded — the discard hook runs exactly when one is provided, the
uptodate flag is cleared and the page unlocked, without marking it under
writeback (its writeback flag is untouched and no `set_page_writeback`
operation is performed) — and the error is recorded on the mapping; with at
least one block queued the page is still marked under writeback
(`set_page_writeback_keepwrite`) and unlocked, every queued ioend is handed
to `iomap_submit_ioend` (nothing is retracted; with the pending error that
submission fails the ioend so its completion bookkeeping still runs), and
the error is recorded on the mapping and returned. -/
theorem iomap_writepage_map_error_paths (bb maxvecs : Nat) (mapb : Nat → Int × iomap)
    (hook : Option (iomap_ioend → Int → Int)) (has_discard : Bool)
    (pg : page) (page_off end_off : Nat) (wpc : writepage_ctx) (map_err : Int)
    (he : (iomap_writepage_scan bb maxvecs mapb pg page_off end_off wpc).1 ≠ 0) :
    ((iomap_writepage_scan bb maxvecs mapb pg page_off end_off wpc).2.2.2.1 = 0 →
      ((iomap_writepage_map bb maxvecs mapb hook has_discard pg page_off end_off wpc
          map_err).2.1.uptodate = false ∧
       (iomap_writepage_map bb maxvecs mapb hook has_discard pg page_off end_off wpc
          map_err).2.1.locked = false ∧
       (iomap_writepage_map bb maxvecs mapb hook has_discard pg page_off end_off wpc
          map_err).2.1.writeback = pg.writeback ∧
       (iomap_writepage_map bb maxvecs mapb hook has_discard pg page_off end_off wpc
          map_err).2.2.2.1 =
         (if has_discard then [pg_op.discard_page] else []) ++
           [pg_op.clear_uptodate, pg_op.unlock] ∧
       (pg_op.discard_page ∈ (iomap_writepage_map bb maxvecs mapb hook has_discard pg
          page_off end_off wpc map_err).2.2.2.1 ↔ has_discard = true) ∧
       pg_op.set_writeback ∉ (iomap_writepage_map bb maxvecs mapb hook has_discard pg
          page_off end_off wpc map_err).2.2.2.1 ∧
       pg_op.set_writeback_keepwrite ∉ (iomap_writepage_map bb maxvecs mapb hook
          has_discard pg page_off end_off wpc map_err).2.2.2.1 ∧
       (iomap_writepage_map bb maxvecs mapb hook has_discard pg page_off end_off wpc
          map_err).2.2.2.2 =
         (iomap_writepage_scan bb maxvecs mapb pg page_off end_off wpc).1 ∧
       (iomap_writepage_map bb maxvecs mapb hook has_discard pg page_off end_off wpc
          map_err).1 =
         (iomap_writepage_scan bb maxvecs mapb pg page_off end_off wpc).1)) ∧
    (0 < (iomap_writepage_scan bb maxvecs mapb pg page_off end_off wpc).2.2.2.1 →
      ((iomap_writepage_map bb maxvecs mapb hook has_discard pg page_off end_off wpc
          map_err).2.1.writeback = true ∧
       (iomap_writepage_map bb maxvecs mapb hook has_discard pg page_off end_off wpc
          map_err).2.1.locked = false ∧
       (∀ io ∈ (iomap_writepage_scan bb maxvecs mapb pg page_off end_off wpc).2.2.1,
         ∃ b, pg_op.submit io.io_offset io.io_size b ∈
           (iomap_writepage_map bb maxvecs mapb hook has_discard pg page_off end_off wpc
             map_err).2.2.2.1) ∧
       (iomap_writepage_map bb maxvecs mapb hook has_discard pg page_off end_off wpc
          map_err).2.2.2.2 =
         (iomap_writepage_scan bb maxvecs mapb pg page_off end_off wpc).1 ∧
       (iomap_writepage_map bb maxvecs mapb hook has_discard pg page_off end_off wpc
          map_err).1 =
         (iomap_writepage_scan bb maxvecs mapb pg page_off end_off wpc).1)) := by
  constructor
  · intro hc
    unfold iomap_writepage_map
    rw [if_pos ⟨he, hc⟩]
    refine ⟨rfl, rfl, ?_, rfl, ?_, ?_, ?_, ?_, rfl⟩
    · cases pg.iop <;> simp
    · cases has_discard <;> simp
    · cases has_discard <;> simp
    · cases has_discard <;> simp
    · simp only [if_pos he]
  · intro hc
    have hcz : ¬ (iomap_writepage_scan bb maxvecs mapb pg page_off end_off wpc).2.2.2.1
        = 0 := by omega
    have houter : ¬((iomap_writepage_scan bb maxvecs mapb pg page_off end_off wpc).1 ≠ 0 ∧
        (iomap_writepage_scan bb maxvecs mapb pg page_off end_off wpc).2.2.2.1 = 0) :=
      fun h => hcz h.2
    unfold iomap_writepage_map
    simp only [if_neg houter, if_pos he, if_neg hcz]
    have hkeep := submit_ioends_keep_error hook
      (iomap_writepage_scan bb maxvecs mapb pg page_off end_off wpc).2.2.1
      (iomap_writepage_scan bb maxvecs mapb pg page_off end_off wpc).1 he
    refine ⟨by trivial, by trivial, ?_, ?_, ?_⟩
    · intro io hio
      obtain ⟨b, hmem⟩ := submit_ioends_mem hook _ _ io hio
      refine ⟨b, ?_⟩
      simp only [List.append_nil, List.mem_append]
      exact Or.inr hmem
    · rw [hkeep]
      simp [he]
    · exact hkeep

/-- **C5 (witness).** A two-block page, both blocks uptodate; the mapper
resolves the first block and fails on the second, so the scan stops with
error -5 after queueing one block: the page ends up marked under writeback,
unlocked, and the error is recorded on the mapping. -/
theorem iomap_writepage_map_error_paths_witness :
    (iomap_writepage_map 11 256
        (fun off => if off < 2048 then ((0 : Int), ⟨IOMAP_MAPPED, 0, 0, 1000000, 0⟩)
          else ((-5 : Int), ⟨IOMAP_MAPPED, 0, 0, 1000000, 0⟩)) none false
        ⟨false, true, false, true, false, some ⟨fun _ => true, 0, 0⟩⟩ 0 4096
        ⟨⟨IOMAP_HOLE, 0, 0, 0, 0⟩, none⟩ 0).2.1.writeback = true ∧
    (iomap_writepage_map 11 256
        (fun off => if off < 2048 then ((0 : Int), ⟨IOMAP_MAPPED, 0, 0, 1000000, 0⟩)
          else ((-5 : Int), ⟨IOMAP_MAPPED, 0, 0, 1000000, 0⟩)) none false
        ⟨false, true, false, true, false, some ⟨fun _ => true, 0, 0⟩⟩ 0 4096
        ⟨⟨IOMAP_HOLE, 0, 0, 0, 0⟩, none⟩ 0).2.1.locked = false ∧
    (iomap_writepage_map 11 256
        (fun off => if off < 2048 then ((0 : Int), ⟨IOMAP_MAPPED, 0, 0, 1000000, 0⟩)
          else ((-5 : Int), ⟨IOMAP_MAPPED, 0, 0, 1000000, 0⟩)) none false
        ⟨false, true, false, true, false, some ⟨fun _ => true, 0, 0⟩⟩ 0 4096
        ⟨⟨IOMAP_HOLE, 0, 0, 0, 0⟩, none⟩ 0).2.2.2.2 =
      (iomap_writepage_scan 11 256
        (fun off => if off < 2048 then ((0 : Int), ⟨IOMAP_MAPPED, 0, 0, 1000000, 0⟩)
          else ((-5 : Int), ⟨IOMAP_MAPPED, 0, 0, 1000000, 0⟩))
        ⟨false, true, false, true, false, some ⟨fun _ => true, 0, 0⟩⟩ 0 4096
        ⟨⟨IOMAP_HOLE, 0, 0, 0, 0⟩, none⟩).1 := by
  have h := (iomap_writepage_map_error_paths 11 256
    (fun off => if off < 2048 then ((0 : Int), ⟨IOMAP_MAPPED, 0, 0, 1000000, 0⟩)
      else ((-5 : Int), ⟨IOMAP_MAPPED, 0, 0, 1000000, 0⟩)) none false
    ⟨false, true, false, true, false, some ⟨fun _ => true, 0, 0⟩⟩ 0 4096
    ⟨⟨IOMAP_HOLE, 0, 0, 0, 0⟩, none⟩ 0 (by decide)).2 (by decide)
  exact ⟨h.1, h.2.1, h.2.2.2.1⟩

/-! ## C2: iomap_adjust_read_range trimming -/

theorem lead_run_le (up : Nat → Bool) : ∀ n i, lead_run up i n ≤ n := by
  intro n
  induction n with
  | zero => intro i; simp [lead_run]
  | succ n ih =>
    intro i
    simp only [lead_run]
    split
    · exact Nat.succ_le_succ (ih (i + 1))
    · omega

theorem lead_run_true (up : Nat → Bool) :
    ∀ n i k, k < lead_run up i n → up (i + k) = true := by
  intro n
  induction n with
  | zero => intro i k h; simp [lead_run] at h
  | succ n ih =>
    intro i k h
    simp only [lead_run] at h
    by_cases hi : up i = true
    · rw [if_pos hi] at h
      cases k with
      | zero => simpa using hi
      | succ k =>
        have := ih (i + 1) k (by omega)
        simpa [Nat.add_assoc, Nat.add_comm 1 k] using this
    · rw [if_neg hi] at h
      omega

theorem lead_run_stop (up : Nat → Bool) :
    ∀ n i, lead_run up i n < n → up (i + lead_run up i n) = false := by
  intro n
  induction n with
  | zero => intro i h; omega
  | succ n ih =>
    intro i h
    simp only [lead_run] at h ⊢
    by_cases hi : up i = true
    · rw [if_pos hi] at h ⊢
      have := ih (i + 1) (by omega)
      have harr : i + (lead_run up (i + 1) n + 1) = i + 1 + lead_run up (i + 1) n := by omega
      rw [harr]
      exact this
    · rw [if_neg hi] at h ⊢
      simpa using hi

theorem first_set_none_iff (up : Nat → Bool) :
    ∀ n i, first_set up i n = none ↔ ∀ k, k < n → up (i + k) = false := by
  intro n
  induction n with
  | zero => intro i; simp [first_set]
  | succ n ih =>
    intro i
    simp only [first_set]
    by_cases hi : up i = true
    · rw [if_pos hi]
      constructor
      · intro h; cases h
      · intro h
        have := h 0 (by omega)
        simp [hi] at this
    · rw [if_neg hi]
      rw [ih]
      constructor
      · intro h k hk
        cases k with
        | zero => simpa using hi
        | succ k =>
          have := h k (by omega)
          simpa [Nat.add_assoc, Nat.add_comm 1 k] using this
      · intro h k hk
        have := h (k + 1) (by omega)
        simpa [Nat.add_assoc, Nat.add_comm 1 k] using this

theorem first_set_some_spec (up : Nat → Bool) :
    ∀ n i j, first_set up i n = some j →
      i ≤ j ∧ j < i + n ∧ up j = true ∧ ∀ k, i ≤ k → k < j → up k = false := by
  intro n
  induction n with
  | zero => intro i j h; simp [first_set] at h
  | succ n ih =>
    intro i j h
    simp only [first_set] at h
    by_cases hi : up i = true
    · rw [if_pos hi] at h
      injection h with h
      subst h
      exact ⟨le_refl i, by omega, hi, fun k hk1 hk2 => by omega⟩
    · rw [if_neg hi] at h
      obtain ⟨h1, h2, h3, h4⟩ := ih (i + 1) j h
      refine ⟨by omega, by omega, h3, ?_⟩
      intro k hk1 hk2
      rcases Nat.eq_or_lt_of_le hk1 with hk | hk
      · subst hk; simpa using hi
      · exact h4 k (by omega) hk2

theorem adjust_some_parts (isize bb : Nat) (up : Nat → Bool) (pos length : Nat)
    (poff plen first last L : Nat)
    (hpoff : poff = pos % PAGE_SIZE)
    (hplen : plen = min (PAGE_SIZE - poff) length)
    (hfirst : first = poff >>> bb)
    (hlast : last = (poff + plen - 1) >>> bb)
    (hL : L = lead_run up first (last + 1 - first))
    (hclamp : ¬(pos ≤ isize ∧ isize < pos + length)) :
    iomap_adjust_read_range isize bb (some up) pos length =
      match first_set up (first + L) (last + 1 - (first + L)) with
      | some j => ⟨pos + L * i_blocksize bb, poff + L * i_blocksize bb,
          plen - L * i_blocksize bb - (last - j + 1) * i_blocksize bb⟩
      | none => ⟨pos + L * i_blocksize bb, poff + L * i_blocksize bb,
          plen - L * i_blocksize bb⟩ := by
  simp only [iomap_adjust_read_range]
  rw [← hpoff, ← hplen, ← hfirst, ← hlast, ← hL]
  cases hfs : first_set up (first + L) (last + 1 - (first + L)) with
  | none => simp [hfs, if_neg hclamp]
  | some j => simp [hfs, if_neg hclamp]

theorem div_pred_succ_mul (bs x : Nat) (hbs : 0 < bs) (hx : 0 < x) (hdvd : bs ∣ x) :
    ((x - 1) / bs + 1) * bs = x := by
  obtain ⟨m, rfl⟩ := hdvd
  have hm : 0 < m := by
    rcases Nat.eq_zero_or_pos m with h | h
    · subst h; simp at hx
    · exact h
  obtain ⟨m', rfl⟩ : ∃ m', m = m' + 1 := ⟨m - 1, by omega⟩
  have h1 : bs * (m' + 1) - 1 = bs * m' + (bs - 1) := by
    have h2 : bs * (m' + 1) = bs * m' + bs := by ring
    omega
  rw [h1, Nat.mul_add_div hbs, Nat.div_eq_of_lt (by omega)]
  ring

/-- **C2 (counterexample).** Page of four 1024-byte blocks; only block 1 is
uptodate; the full page is requested.  The maximal already-uptodate leading
run is empty and the maximal already-uptodate trailing run is empty (block 3
is not uptodate), so under the claim nothing would be removed — but
`iomap_adjust_read_range` truncates at the *first* uptodate block after the
leading run and returns only block 0 (`len = 1024`), removing the
non-uptodate blocks 2 and 3 along with block 1. -/
theorem iomap_adjust_read_range_trailing_not_maximal :
    iomap_adjust_read_range 4096 10 (some (fun k => k == 1)) 0 4096 =
      ⟨0, 0, 1024⟩ ∧
    (fun k : Nat => k == 1) 2 = false ∧ (fun k : Nat => k == 1) 3 = false := by
  decide

/-- **C2 (amended).** For a block-aligned request (`pos` and `length`
multiples of the block size) within EOF on a page with a sub-block bitmap:
the range `iomap_adjust_read_range` returns contains no already-uptodate
block; the leading blocks removed are exactly the maximal already-uptodate
leading run; and the trailing removal, when there is one, starts exactly at
the first already-uptodate block after that leading run and extends to the
end of the request — possibly removing non-uptodate blocks after it (the
removed trailing run is *not* required to be entirely uptodate). -/
theorem iomap_adjust_read_range_trim_spec (isize bb : Nat) (up : Nat → Bool)
    (pos length : Nat) (hbb : bb ≤ PAGE_SHIFT) (hlen : 0 < length)
    (hp : i_blocksize bb ∣ pos) (hl : i_blocksize bb ∣ length)
    (heof : pos + length ≤ isize) :
    (∀ k, (pos % PAGE_SIZE) >>> bb ≤ k →
       k < (iomap_adjust_read_range isize bb (some up) pos length).off >>> bb →
       up k = true) ∧
    (∀ k, (iomap_adjust_read_range isize bb (some up) pos length).off >>> bb ≤ k →
       k * i_blocksize bb < (iomap_adjust_read_range isize bb (some up) pos length).off +
         (iomap_adjust_read_range isize bb (some up) pos length).len →
       up k = false) ∧
    ((iomap_adjust_read_range isize bb (some up) pos length).off +
        (iomap_adjust_read_range isize bb (some up) pos length).len =
        pos % PAGE_SIZE + min (PAGE_SIZE - pos % PAGE_SIZE) length ∨
      (up (((iomap_adjust_read_range isize bb (some up) pos length).off +
          (iomap_adjust_read_range isize bb (some up) pos length).len) >>> bb) = true ∧
        ((iomap_adjust_read_range isize bb (some up) pos length).off +
          (iomap_adjust_read_range isize bb (some up) pos length).len) >>> bb
          ≤ (pos % PAGE_SIZE + min (PAGE_SIZE - pos % PAGE_SIZE) length - 1) >>> bb)) := by
  have hbb12 : bb ≤ 12 := by simpa [PAGE_SHIFT] using hbb
  have hbs : 0 < i_blocksize bb := by unfold i_blocksize; positivity
  have hpagedvd : i_blocksize bb ∣ PAGE_SIZE := by
    have h1 : PAGE_SIZE = 2 ^ 12 := by norm_num [PAGE_SIZE]
    rw [h1]; unfold i_blocksize; exact pow_dvd_pow 2 hbb12
  set bs := i_blocksize bb with hbsdef
  have hbs2 : bs = 2 ^ bb := by rw [hbsdef]; rfl
  set poff := pos % PAGE_SIZE with hpoffdef
  set plen := min (PAGE_SIZE - poff) length with hplendef
  set first := poff >>> bb with hfirstdef
  set last := (poff + plen - 1) >>> bb with hlastdef
  set L := lead_run up first (last + 1 - first) with hLdef
  have hval := adjust_some_parts isize bb up pos length poff plen first last L
    hpoffdef hplendef hfirstdef hlastdef hLdef (by omega)
  rw [← hbsdef] at hval
  have hpoffdvd : bs ∣ poff := by rw [hpoffdef]; exact (Nat.dvd_mod_iff hpagedvd).mpr hp
  have hpofflt : poff < PAGE_SIZE := by
    rw [hpoffdef]; exact Nat.mod_lt _ (by norm_num [PAGE_SIZE])
  have hplendvd : bs ∣ plen := by
    rw [hplendef]
    rcases le_total (PAGE_SIZE - poff) length with hle | hle
    · rw [min_eq_left hle]; exact Nat.dvd_sub' hpagedvd hpoffdvd
    · rw [min_eq_right hle]; exact hl
  have hplenpos : 0 < plen := by rw [hplendef]; omega
  have hfirst_mul : poff = first * bs := by
    rw [hfirstdef, Nat.shiftRight_eq_div_pow, ← hbs2]
    exact (Nat.div_mul_cancel hpoffdvd).symm
  have hend_mul : (last + 1) * bs = poff + plen := by
    rw [hlastdef, Nat.shiftRight_eq_div_pow, ← hbs2]
    exact div_pred_succ_mul bs (poff + plen) hbs (by omega) (Nat.dvd_add hpoffdvd hplendvd)
  have hplen_mul : plen = (last + 1 - first) * bs := by
    have e2 : (last + 1 - first) * bs = (last + 1) * bs - first * bs := Nat.sub_mul _ _ _
    omega
  have hL_le : L ≤ last + 1 - first := by rw [hLdef]; exact lead_run_le up _ _
  have hfl : first ≤ last := by
    rcases Nat.eq_zero_or_pos (last + 1 - first) with h0 | h0
    · rw [h0] at hplen_mul; simp at hplen_mul; omega
    · omega
  have hoff_div : (poff + L * bs) >>> bb = first + L := by
    rw [Nat.shiftRight_eq_div_pow, ← hbs2, hfirst_mul, ← Nat.add_mul]
    exact Nat.mul_div_cancel _ hbs
  have hLbs_le : L * bs ≤ plen := by
    rw [hplen_mul]
    exact Nat.mul_le_mul_right bs hL_le
  have hlead : ∀ k, first ≤ k → k < first + L → up k = true := by
    intro k hk1 hk2
    have h := lead_run_true up (last + 1 - first) first (k - first) (by omega)
    have he : first + (k - first) = k := by omega
    rwa [he] at h
  rcases hfs : first_set up (first + L) (last + 1 - (first + L)) with - | j
  · rw [hfs] at hval
    simp only [] at hval
    have hnone := (first_set_none_iff up (last + 1 - (first + L)) (first + L)).mp hfs
    rw [hval]
    simp only []
    refine ⟨?_, ?_, ?_⟩
    · intro k hk1 hk2
      rw [hoff_div] at hk2
      exact hlead k hk1 hk2
    · intro k hk1 hk2
      rw [hoff_div] at hk1
      have hsum : poff + L * bs + (plen - L * bs) = (last + 1) * bs := by omega
      rw [hsum] at hk2
      have hklt : k < last + 1 := by
        by_contra hc
        push_neg at hc
        exact absurd hk2 (by
          have := Nat.mul_le_mul_right bs hc
          omega)
      have h := hnone (k - (first + L)) (by omega)
      have he : first + L + (k - (first + L)) = k := by omega
      rwa [he] at h
    · left
      omega
  · rw [hfs] at hval
    simp only [] at hval
    obtain ⟨hj1, hj2, hj3, hj4⟩ :=
      first_set_some_spec up (last + 1 - (first + L)) (first + L) j hfs
    have hLlt : L < last + 1 - first := by omega
    have hjle : j ≤ last := by omega
    have hrlen : plen - L * bs - (last - j + 1) * bs = (j - (first + L)) * bs := by
      have e1 : (last + 1 - first) * bs = (last + 1) * bs - first * bs := Nat.sub_mul _ _ _
      have e2 : (last - j + 1) * bs = (last + 1) * bs - j * bs := by
        have e3 : last - j + 1 = last + 1 - j := by omega
        rw [e3]; exact Nat.sub_mul _ _ _
      have e4 : (j - (first + L)) * bs = j * bs - (first + L) * bs := Nat.sub_mul _ _ _
      have e5 : (first + L) * bs = first * bs + L * bs := Nat.add_mul _ _ _
      have e6 : j * bs ≤ (last + 1) * bs := Nat.mul_le_mul_right bs (by omega)
      have e7 : (first + L) * bs ≤ j * bs := Nat.mul_le_mul_right bs (by omega)
      omega
    have hsum : poff + L * bs + (plen - L * bs - (last - j + 1) * bs) = j * bs := by
      rw [hrlen]
      have e4 : (j - (first + L)) * bs = j * bs - (first + L) * bs := Nat.sub_mul _ _ _
      have e5 : (first + L) * bs = first * bs + L * bs := Nat.add_mul _ _ _
      have e7 : (first + L) * bs ≤ j * bs := Nat.mul_le_mul_right bs (by omega)
      omega
    rw [hval]
    simp only []
    refine ⟨?_, ?_, ?_⟩
    · intro k hk1 hk2
      rw [hoff_div] at hk2
      exact hlead k hk1 hk2
    · intro k hk1 hk2
      rw [hoff_div] at hk1
      rw [hsum] at hk2
      have hklt : k < j := by
        by_contra hc
        push_neg at hc
        exact absurd hk2 (by
          have := Nat.mul_le_mul_right bs hc
          omega)
      exact hj4 k hk1 hklt
    · right
      rw [hsum]
      have hjdiv : (j * bs) >>> bb = j := by
        rw [Nat.shiftRight_eq_div_pow, ← hbs2]
        exact Nat.mul_div_cancel _ hbs
      rw [hjdiv]
      exact ⟨hj3, hjle⟩

/-- **C2 (witness).** The amended trimming property at a concrete input:
a four-block page with only block 1 uptodate, full-page aligned request
within EOF. -/
theorem iomap_adjust_read_range_trim_spec_witness :
    (iomap_adjust_read_range 8192 10 (some (fun k => k == 1)) 0 4096).off +
        (iomap_adjust_read_range 8192 10 (some (fun k => k == 1)) 0 4096).len =
        0 % PAGE_SIZE + min (PAGE_SIZE - 0 % PAGE_SIZE) 4096 ∨
      ((fun k => k == 1) (((iomap_adjust_read_range 8192 10 (some (fun k => k == 1)) 0
            4096).off +
          (iomap_adjust_read_range 8192 10 (some (fun k => k == 1)) 0 4096).len) >>> 10)
          = true ∧
        ((iomap_adjust_read_range 8192 10 (some (fun k => k == 1)) 0 4096).off +
          (iomap_adjust_read_range 8192 10 (some (fun k => k == 1)) 0 4096).len) >>> 10
          ≤ (0 % PAGE_SIZE + min (PAGE_SIZE - 0 % PAGE_SIZE) 4096 - 1) >>> 10) :=
  (iomap_adjust_read_range_trim_spec 8192 10 (fun k => k == 1) 0 4096
    (by decide) (by decide) (by decide) (by decide) (by decide)).2.2

theorem adjust_spec7 (isize bb : Nat) (up : Nat → Bool) (pos length : Nat)
    (hbb : bb ≤ PAGE_SHIFT) (hlen : 0 < length)
    (hp : i_blocksize bb ∣ pos) (hl : i_blocksize bb ∣ length)
    (hpage : pos % PAGE_SIZE + length ≤ PAGE_SIZE)
    (hclamp : ¬(pos ≤ isize ∧ isize < pos + length)) :
    ∃ L : Nat,
      (iomap_adjust_read_range isize bb (some up) pos length).pos =
        pos + L * i_blocksize bb ∧
      (iomap_adjust_read_range isize bb (some up) pos length).off =
        pos % PAGE_SIZE + L * i_blocksize bb ∧
      i_blocksize bb ∣ (iomap_adjust_read_range isize bb (some up) pos length).len ∧
      (iomap_adjust_read_range isize bb (some up) pos length).pos +
        (iomap_adjust_read_range isize bb (some up) pos length).len ≤ pos + length ∧
      (∀ k, (pos % PAGE_SIZE) >>> bb ≤ k → k < (pos % PAGE_SIZE) >>> bb + L →
        up k = true) ∧
      ((iomap_adjust_read_range isize bb (some up) pos length).len = 0 →
        ∀ k, (pos % PAGE_SIZE) >>> bb ≤ k →
          k * i_blocksize bb < pos % PAGE_SIZE + length → up k = true) ∧
      ((iomap_adjust_read_range isize bb (some up) pos length).len ≠ 0 →
        ∀ k, (iomap_adjust_read_range isize bb (some up) pos length).off >>> bb ≤ k →
          k * i_blocksize bb <
            (iomap_adjust_read_range isize bb (some up) pos length).off +
            (iomap_adjust_read_range isize bb (some up) pos length).len →
          up k = false) := by
  have hbb12 : bb ≤ 12 := by simpa [PAGE_SHIFT] using hbb
  have hbs : 0 < i_blocksize bb := by unfold i_blocksize; positivity
  have hpagedvd : i_blocksize bb ∣ PAGE_SIZE := by
    have h1 : PAGE_SIZE = 2 ^ 12 := by norm_num [PAGE_SIZE]
    rw [h1]; unfold i_blocksize; exact pow_dvd_pow 2 hbb12
  set bs := i_blocksize bb with hbsdef
  have hbs2 : bs = 2 ^ bb := by rw [hbsdef]; rfl
  set poff := pos % PAGE_SIZE with hpoffdef
  set plen := min (PAGE_SIZE - poff) length with hplendef
  set first := poff >>> bb with hfirstdef
  set last := (poff + plen - 1) >>> bb with hlastdef
  set L := lead_run up first (last + 1 - first) with hLdef
  have hval := adjust_some_parts isize bb up pos length poff plen first last L
    hpoffdef hplendef hfirstdef hlastdef hLdef hclamp
  rw [← hbsdef] at hval
  have hpoffdvd : bs ∣ poff := by rw [hpoffdef]; exact (Nat.dvd_mod_iff hpagedvd).mpr hp
  have hpofflt : poff < PAGE_SIZE := by
    rw [hpoffdef]; exact Nat.mod_lt _ (by norm_num [PAGE_SIZE])
  have hplen_len : plen = length := by rw [hplendef]; omega
  have hplendvd : bs ∣ plen := by rw [hplen_len]; exact hl
  have hplenpos : 0 < plen := by omega
  have hfirst_mul : poff = first * bs := by
    rw [hfirstdef, Nat.shiftRight_eq_div_pow, ← hbs2]
    exact (Nat.div_mul_cancel hpoffdvd).symm
  have hend_mul : (last + 1) * bs = poff + plen := by
    rw [hlastdef, Nat.shiftRight_eq_div_pow, ← hbs2]
    exact div_pred_succ_mul bs (poff + plen) hbs (by omega) (Nat.dvd_add hpoffdvd hplendvd)
  have hplen_mul : plen = (last + 1 - first) * bs := by
    have e2 : (last + 1 - first) * bs = (last + 1) * bs - first * bs := Nat.sub_mul _ _ _
    omega
  have hL_le : L ≤ last + 1 - first := by rw [hLdef]; exact lead_run_le up _ _
  have hfl : first ≤ last := by
    rcases Nat.eq_zero_or_pos (last + 1 - first) with h0 | h0
    · rw [h0] at hplen_mul; simp at hplen_mul; omega
    · omega
  have hoff_div : (poff + L * bs) >>> bb = first + L := by
    rw [Nat.shiftRight_eq_div_pow, ← hbs2, hfirst_mul, ← Nat.add_mul]
    exact Nat.mul_div_cancel _ hbs
  have hLbs_le : L * bs ≤ plen := by
    rw [hplen_mul]
    exact Nat.mul_le_mul_right bs hL_le
  have hlead : ∀ k, first ≤ k → k < first + L → up k = true := by
    intro k hk1 hk2
    have h := lead_run_true up (last + 1 - first) first (k - first) (by omega)
    have he : first + (k - first) = k := by omega
    rwa [he] at h
  refine ⟨L, ?_⟩
  rcases hfs : first_set up (first + L) (last + 1 - (first + L)) with - | j
  · rw [hfs] at hval
    simp only [] at hval
    have hnone := (first_set_none_iff up (last + 1 - (first + L)) (first + L)).mp hfs
    rw [hval]
    simp only []
    refine ⟨by trivial, by trivial, Nat.dvd_sub' hplendvd (Dvd.intro L (by ring)),
      by omega, hlead, ?_, ?_⟩
    · intro h0 k hk1 hk2
      have hLnb : last + 1 - first ≤ L := by
        by_contra hc
        push_neg at hc
        have h1 : L * bs < (last + 1 - first) * bs := by
          exact Nat.mul_lt_mul_of_lt_of_le hc (le_refl bs) hbs
        omega
      have hklast : k < last + 1 := by
        by_contra hc
        push_neg at hc
        have := Nat.mul_le_mul_right bs hc
        omega
      exact hlead k hk1 (by omega)
    · intro hne k hk1 hk2
      rw [hoff_div] at hk1
      have hsum : poff + L * bs + (plen - L * bs) = (last + 1) * bs := by omega
      have hk2' : k * bs < (last + 1) * bs := by omega
      have hklt : k < last + 1 := by
        by_contra hc
        push_neg at hc
        have := Nat.mul_le_mul_right bs hc
        omega
      have h := hnone (k - (first + L)) (by omega)
      have he : first + L + (k - (first + L)) = k := by omega
      rwa [he] at h
  · rw [hfs] at hval
    simp only [] at hval
    obtain ⟨hj1, hj2, hj3, hj4⟩ :=
      first_set_some_spec up (last + 1 - (first + L)) (first + L) j hfs
    have hLlt : L < last + 1 - first := by omega
    have hjle : j ≤ last := by omega
    have hjgt : first + L < j := by
      rcases Nat.eq_or_lt_of_le hj1 with h | h
      · exfalso
        have hstop := lead_run_stop up (last + 1 - first) first (by omega)
        rw [← hLdef] at hstop
        rw [← h] at hj3
        rw [hstop] at hj3
        cases hj3
      · exact h
    have hrlen : plen - L * bs - (last - j + 1) * bs = (j - (first + L)) * bs := by
      have e1 : (last + 1 - first) * bs = (last + 1) * bs - first * bs := Nat.sub_mul _ _ _
      have e2 : (last - j + 1) * bs = (last + 1) * bs - j * bs := by
        have e3 : last - j + 1 = last + 1 - j := by omega
        rw [e3]; exact Nat.sub_mul _ _ _
      have e4 : (j - (first + L)) * bs = j * bs - (first + L) * bs := Nat.sub_mul _ _ _
      have e5 : (first + L) * bs = first * bs + L * bs := Nat.add_mul _ _ _
      have e6 : j * bs ≤ (last + 1) * bs := Nat.mul_le_mul_right bs (by omega)
      have e7 : (first + L) * bs ≤ j * bs := Nat.mul_le_mul_right bs (by omega)
      omega
    have hsum : poff + L * bs + (plen - L * bs - (last - j + 1) * bs) = j * bs := by
      rw [hrlen]
      have e4 : (j - (first + L)) * bs = j * bs - (first + L) * bs := Nat.sub_mul _ _ _
      have e5 : (first + L) * bs = first * bs + L * bs := Nat.add_mul _ _ _
      have e7 : (first + L) * bs ≤ j * bs := Nat.mul_le_mul_right bs (by omega)
      omega
    rw [hval]
    simp only []
    refine ⟨by trivial, by trivial, by rw [hrlen]; exact ⟨j - (first + L), by ring⟩, ?_,
      hlead, ?_, ?_⟩
    · -- r.pos + r.len ≤ pos + length
      have e6 : j * bs ≤ (last + 1) * bs := Nat.mul_le_mul_right bs (by omega)
      omega
    · intro h0
      exfalso
      rw [hrlen] at h0
      have : 0 < (j - (first + L)) * bs := by
        apply Nat.mul_pos (by omega) hbs
      omega
    · intro hne k hk1 hk2
      rw [hoff_div] at hk1
      have hk2' : k * bs < j * bs := by omega
      have hklt : k < j := by
        by_contra hc
        push_neg at hc
        have := Nat.mul_le_mul_right bs hc
        omega
      exact hj4 k hk1 hklt

theorem rps_state (isize bb bs₀ : Nat) (pg : page) (poff plen wfrom wto : Nat)
    (m : iomap) (readFn : Nat → Nat → Int) (s : iomap_page) (hiop : pg.iop = some s) :
    ∃ s₁, (iomap_read_page_sync isize bb bs₀ pg poff plen wfrom wto m readFn).2.1.iop
        = some s₁ ∧
      ∀ k, (poff + plen - 1) >>> bb < k → s₁.uptodate k = s.uptodate k := by
  unfold iomap_read_page_sync
  split
  · refine ⟨{ s with uptodate := (set_range_scan s.uptodate (poff >>> bb)
        ((poff + plen - 1) >>> bb) (PAGE_SIZE / i_blocksize bb)).1 }, ?_, ?_⟩
    · simp [iomap_set_range_uptodate, hiop]
    · intro k hk
      simp only []
      rw [set_range_scan_fst]
      rw [if_neg (by omega)]
  · exact ⟨s, hiop, fun k hk => rfl⟩

theorem rps_ops (isize bb bs₀ : Nat) (pg : page) (poff plen wfrom wto : Nat)
    (m : iomap) (readFn : Nat → Nat → Int) :
    (iomap_read_page_sync isize bb bs₀ pg poff plen wfrom wto m readFn).2.2
        = [wb_op.zero_segs bs₀ poff wfrom wto plen] ∨
      (iomap_read_page_sync isize bb bs₀ pg poff plen wfrom wto m readFn).2.2
        = [wb_op.read_sync bs₀ poff plen] := by
  unfold iomap_read_page_sync
  split
  · left; rfl
  · right; rfl

theorem mod_of_page_base (pb x : Nat) (hpb : PAGE_SIZE ∣ pb) (h1 : pb ≤ x)
    (h2 : x < pb + PAGE_SIZE) : x % PAGE_SIZE = x - pb := by
  obtain ⟨q, rfl⟩ := hpb
  have hx : x = PAGE_SIZE * q + (x - PAGE_SIZE * q) := by omega
  rw [hx, Nat.mul_add_mod]
  rw [Nat.mod_eq_of_lt (by omega)]
  omega

theorem mul_le_iff_of_pos (bs a b : Nat) (hbs : 0 < bs) : a * bs ≤ b * bs ↔ a ≤ b :=
  ⟨fun h => Nat.le_of_mul_le_mul_right h hbs, fun h => Nat.mul_le_mul_right bs h⟩

set_option maxHeartbeats 1000000

theorem write_begin_loop_spec (isize bb : Nat) (m : iomap) (readFn : Nat → Nat → Int)
    (wfrom wto pb : Nat) (hbb : bb ≤ PAGE_SHIFT) (hpb : PAGE_SIZE ∣ pb) :
    ∀ n block_start block_end pg s,
      block_end - block_start ≤ n →
      pg.iop = some s →
      i_blocksize bb ∣ block_start → i_blocksize bb ∣ block_end →
      pb ≤ block_start → block_end ≤ pb + PAGE_SIZE → block_end ≤ isize →
      (∀ op ∈ (__iomap_write_begin_loop isize bb m readFn wfrom wto pg block_start
          block_end).2.2, wb_op_boundary op wfrom wto) ∧
      ((__iomap_write_begin_loop isize bb m readFn wfrom wto pg block_start block_end).1
          = 0 →
        ∀ k, block_start ≤ pb + k * i_blocksize bb →
          pb + (k + 1) * i_blocksize bb ≤ block_end →
          s.uptodate k = false →
          ((k * i_blocksize bb < wfrom ∧ wfrom < (k + 1) * i_blocksize bb) ∨
           (k * i_blocksize bb < wto ∧ wto < (k + 1) * i_blocksize bb)) →
          ∃ op ∈ (__iomap_write_begin_loop isize bb m readFn wfrom wto pg block_start
              block_end).2.2,
            wb_op_covers op (pb + k * i_blocksize bb)
              (pb + (k + 1) * i_blocksize bb)) := by
  have hbb12 : bb ≤ 12 := by simpa [PAGE_SHIFT] using hbb
  have hbs : 0 < i_blocksize bb := by unfold i_blocksize; positivity
  have hpagedvd : i_blocksize bb ∣ PAGE_SIZE := by
    have h1 : PAGE_SIZE = 2 ^ 12 := by norm_num [PAGE_SIZE]
    rw [h1]; unfold i_blocksize; exact pow_dvd_pow 2 hbb12
  have hpbdvd : i_blocksize bb ∣ pb := dvd_trans hpagedvd hpb
  intro n
  induction n with
  | zero =>
    intro block_start block_end pg s hn hiop hd1 hd2 hpb1 hpb2 hisz
    unfold __iomap_write_begin_loop
    rw [dif_neg (by omega)]
    constructor
    · intro op hop
      simp at hop
    · intro _ k hk1 hk2 _ _
      exfalso
      have e : (k + 1) * i_blocksize bb = k * i_blocksize bb + i_blocksize bb := by ring
      omega
  | succ n ih =>
    intro block_start block_end pg s hn hiop hd1 hd2 hpb1 hpb2 hisz
    by_cases hlt : block_start < block_end
    case neg =>
      unfold __iomap_write_begin_loop
      rw [dif_neg hlt]
      constructor
      · intro op hop
        simp at hop
      · intro _ k hk1 hk2 _ _
        exfalso
        have e : (k + 1) * i_blocksize bb = k * i_blocksize bb + i_blocksize bb := by ring
        omega
    case pos =>
      have hbs2 : i_blocksize bb = 2 ^ bb := rfl
      have hmod : block_start % PAGE_SIZE = block_start - pb :=
        mod_of_page_base pb block_start hpb hpb1 (by omega)
      obtain ⟨L, hr1, hr2, hr3, hr4, hr5, hr6, hr7⟩ := adjust_spec7 isize bb s.uptodate
        block_start (block_end - block_start) hbb (by omega) hd1
        (Nat.dvd_sub' hd2 hd1) (by rw [hmod]; omega) (by omega)
      obtain ⟨B, hB⟩ : ∃ B, block_start = pb + B * i_blocksize bb := by
        obtain ⟨c, hc⟩ := Nat.dvd_sub' hd1 hpbdvd
        rw [Nat.mul_comm] at hc
        exact ⟨c, by omega⟩
      obtain ⟨K, hK⟩ : ∃ K, (iomap_adjust_read_range isize bb (some s.uptodate)
          block_start (block_end - block_start)).len = K * i_blocksize bb := by
        obtain ⟨c, hc⟩ := hr3
        rw [Nat.mul_comm] at hc
        exact ⟨c, hc⟩
      have hBL : (B + L) * i_blocksize bb = B * i_blocksize bb + L * i_blocksize bb :=
        Nat.add_mul _ _ _
      have hBLK : (B + L + K) * i_blocksize bb =
          (B + L) * i_blocksize bb + K * i_blocksize bb := by ring
      have hrpos : (iomap_adjust_read_range isize bb (some s.uptodate) block_start
          (block_end - block_start)).pos = pb + (B + L) * i_blocksize bb := by
        rw [hr1, hBL]; omega
      have hroff : (iomap_adjust_read_range isize bb (some s.uptodate) block_start
          (block_end - block_start)).off = (B + L) * i_blocksize bb := by
        rw [hr2, hmod, hBL]; omega
      have hBdiv : (block_start % PAGE_SIZE) >>> bb = B := by
        rw [hmod, (show block_start - pb = B * i_blocksize bb by omega),
          Nat.shiftRight_eq_div_pow, ← hbs2]
        exact Nat.mul_div_cancel _ hbs
      by_cases hl0 : (iomap_adjust_read_range isize bb (some s.uptodate) block_start
          (block_end - block_start)).len = 0
      · have hloop : __iomap_write_begin_loop isize bb m readFn wfrom wto pg block_start
            block_end = (0, pg, []) := by
          unfold __iomap_write_begin_loop
          rw [dif_pos hlt]
          simp only [hiop, Option.map_some']
          rw [dif_pos hl0]
        rw [hloop]
        constructor
        · intro op hop
          simp at hop
        · intro _ k hk1 hk2 hnu hbnd
          exfalso
          have hBk : B ≤ k := by
            have h1 : B * i_blocksize bb ≤ k * i_blocksize bb := by omega
            exact (mul_le_iff_of_pos _ B k hbs).mp h1
          have hk1' : (k + 1) * i_blocksize bb = k * i_blocksize bb + i_blocksize bb := by
            ring
          have := hr6 hl0 k (by rw [hBdiv]; exact hBk) (by rw [hmod]; omega)
          rw [this] at hnu
          cases hnu
      · by_cases hcond : (wfrom > (iomap_adjust_read_range isize bb (some s.uptodate)
            block_start (block_end - block_start)).off ∧
            wfrom < (iomap_adjust_read_range isize bb (some s.uptodate) block_start
              (block_end - block_start)).off + (iomap_adjust_read_range isize bb
              (some s.uptodate) block_start (block_end - block_start)).len) ∨
            (wto > (iomap_adjust_read_range isize bb (some s.uptodate) block_start
              (block_end - block_start)).off ∧
            wto < (iomap_adjust_read_range isize bb (some s.uptodate) block_start
              (block_end - block_start)).off + (iomap_adjust_read_range isize bb
              (some s.uptodate) block_start (block_end - block_start)).len)
        · by_cases ht : (iomap_read_page_sync isize bb
              (iomap_adjust_read_range isize bb (some s.uptodate) block_start
                (block_end - block_start)).pos pg
              (iomap_adjust_read_range isize bb (some s.uptodate) block_start
                (block_end - block_start)).off
              (iomap_adjust_read_range isize bb (some s.uptodate) block_start
                (block_end - block_start)).len wfrom wto m readFn).1 ≠ 0
          · have hloop : __iomap_write_begin_loop isize bb m readFn wfrom wto pg
                block_start block_end = iomap_read_page_sync isize bb
                  (iomap_adjust_read_range isize bb (some s.uptodate) block_start
                    (block_end - block_start)).pos pg
                  (iomap_adjust_read_range isize bb (some s.uptodate) block_start
                    (block_end - block_start)).off
                  (iomap_adjust_read_range isize bb (some s.uptodate) block_start
                    (block_end - block_start)).len wfrom wto m readFn := by
              unfold __iomap_write_begin_loop
              rw [dif_pos hlt]
              simp only [hiop, Option.map_some']
              rw [dif_neg hl0, if_pos hcond, if_pos ht]
            rw [hloop]
            constructor
            · intro op hop
              rcases rps_ops isize bb (iomap_adjust_read_range isize bb (some s.uptodate)
                  block_start (block_end - block_start)).pos pg
                  (iomap_adjust_read_range isize bb (some s.uptodate) block_start
                    (block_end - block_start)).off
                  (iomap_adjust_read_range isize bb (some s.uptodate) block_start
                    (block_end - block_start)).len wfrom wto m readFn with hops | hops <;>
                rw [hops] at hop <;> simp at hop <;> subst hop <;>
                simp [wb_op_boundary] <;> omega
            · intro h0
              exact absurd h0 ht
          · push_neg at ht
            obtain ⟨s₁, hs₁, hpres⟩ := rps_state isize bb
              (iomap_adjust_read_range isize bb (some s.uptodate) block_start
                (block_end - block_start)).pos pg
              (iomap_adjust_read_range isize bb (some s.uptodate) block_start
                (block_end - block_start)).off
              (iomap_adjust_read_range isize bb (some s.uptodate) block_start
                (block_end - block_start)).len wfrom wto m readFn s hiop
            have hlen1 : 1 ≤ (iomap_adjust_read_range isize bb (some s.uptodate)
                block_start (block_end - block_start)).len := by omega
            have hnextdvd : i_blocksize bb ∣
                (iomap_adjust_read_range isize bb (some s.uptodate) block_start
                  (block_end - block_start)).pos +
                (iomap_adjust_read_range isize bb (some s.uptodate) block_start
                  (block_end - block_start)).len := by
              rw [hrpos, hK]
              exact Nat.dvd_add (Nat.dvd_add hpbdvd ⟨B + L, Nat.mul_comm _ _⟩)
                ⟨K, Nat.mul_comm _ _⟩
            have ihres := ih ((iomap_adjust_read_range isize bb (some s.uptodate)
                block_start (block_end - block_start)).pos +
                (iomap_adjust_read_range isize bb (some s.uptodate) block_start
                  (block_end - block_start)).len) block_end
              (iomap_read_page_sync isize bb
                (iomap_adjust_read_range isize bb (some s.uptodate) block_start
                  (block_end - block_start)).pos pg
                (iomap_adjust_read_range isize bb (some s.uptodate) block_start
                  (block_end - block_start)).off
                (iomap_adjust_read_range isize bb (some s.uptodate) block_start
                  (block_end - block_start)).len wfrom wto m readFn).2.1 s₁
              (by omega) hs₁ hnextdvd hd2 (by rw [hrpos]; omega) hpb2 hisz
            have hloop : __iomap_write_begin_loop isize bb m readFn wfrom wto pg
                block_start block_end =
                ((__iomap_write_begin_loop isize bb m readFn wfrom wto
                  (iomap_read_page_sync isize bb
                    (iomap_adjust_read_range isize bb (some s.uptodate) block_start
                      (block_end - block_start)).pos pg
                    (iomap_adjust_read_range isize bb (some s.uptodate) block_start
                      (block_end - block_start)).off
                    (iomap_adjust_read_range isize bb (some s.uptodate) block_start
                      (block_end - block_start)).len wfrom wto m readFn).2.1
                  ((iomap_adjust_read_range isize bb (some s.uptodate) block_start
                    (block_end - block_start)).pos +
                    (iomap_adjust_read_range isize bb (some s.uptodate) block_start
                      (block_end - block_start)).len) block_end).1,
                 (__iomap_write_begin_loop isize bb m readFn wfrom wto
                  (iomap_read_page_sync isize bb
                    (iomap_adjust_read_range isize bb (some s.uptodate) block_start
                      (block_end - block_start)).pos pg
                    (iomap_adjust_read_range isize bb (some s.uptodate) block_start
                      (block_end - block_start)).off
                    (iomap_adjust_read_range isize bb (some s.uptodate) block_start
                      (block_end - block_start)).len wfrom wto m readFn).2.1
                  ((iomap_adjust_read_range isize bb (some s.uptodate) block_start
                    (block_end - block_start)).pos +
                    (iomap_adjust_read_range isize bb (some s.uptodate) block_start
                      (block_end - block_start)).len) block_end).2.1,
                 (iomap_read_page_sync isize bb
                    (iomap_adjust_read_range isize bb (some s.uptodate) block_start
                      (block_end - block_start)).pos pg
                    (iomap_adjust_read_range isize bb (some s.uptodate) block_start
                      (block_end - block_start)).off
                    (iomap_adjust_read_range isize bb (some s.uptodate) block_start
                      (block_end - block_start)).len wfrom wto m readFn).2.2 ++
                 (__iomap_write_begin_loop isize bb m readFn wfrom wto
                  (iomap_read_page_sync isize bb
                    (iomap_adjust_read_range isize bb (some s.uptodate) block_start
                      (block_end - block_start)).pos pg
                    (iomap_adjust_read_range isize bb (some s.uptodate) block_start
                      (block_end - block_start)).off
                    (iomap_adjust_read_range isize bb (some s.uptodate) block_start
                      (block_end - block_start)).len wfrom wto m readFn).2.1
                  ((iomap_adjust_read_range isize bb (some s.uptodate) block_start
                    (block_end - block_start)).pos +
                    (iomap_adjust_read_range isize bb (some s.uptodate) block_start
                      (block_end - block_start)).len) block_end).2.2) := by
              conv_lhs => unfold __iomap_write_begin_loop
              rw [dif_pos hlt]
              simp only [hiop, Option.map_some']
              rw [dif_neg hl0, if_pos hcond, if_neg (by omega)]
            rw [hloop]
            constructor
            · intro op hop
              rcases List.mem_append.mp hop with hop | hop
              · rcases rps_ops isize bb (iomap_adjust_read_range isize bb
                    (some s.uptodate) block_start (block_end - block_start)).pos pg
                    (iomap_adjust_read_range isize bb (some s.uptodate) block_start
                      (block_end - block_start)).off
                    (iomap_adjust_read_range isize bb (some s.uptodate) block_start
                      (block_end - block_start)).len wfrom wto m readFn with hops | hops <;>
                  rw [hops] at hop <;> simp at hop <;> subst hop <;>
                  simp [wb_op_boundary] <;> omega
              · exact ihres.1 op hop
            · intro h0 k hk1 hk2 hnu hbnd
              have hBk : B ≤ k := by
                have h1 : B * i_blocksize bb ≤ k * i_blocksize bb := by omega
                exact (mul_le_iff_of_pos _ B k hbs).mp h1
              have hk1' : (k + 1) * i_blocksize bb =
                  k * i_blocksize bb + i_blocksize bb := by ring
              by_cases hA : pb + (k + 1) * i_blocksize bb ≤
                  (iomap_adjust_read_range isize bb (some s.uptodate) block_start
                    (block_end - block_start)).pos
              · exfalso
                rw [hrpos] at hA
                have hkBL : k + 1 ≤ B + L :=
                  (mul_le_iff_of_pos _ (k + 1) (B + L) hbs).mp (by omega)
                have := hr5 k (by rw [hBdiv]; exact hBk) (by rw [hBdiv]; omega)
                rw [this] at hnu
                cases hnu
              · by_cases hC : (iomap_adjust_read_range isize bb (some s.uptodate)
                    block_start (block_end - block_start)).pos +
                    (iomap_adjust_read_range isize bb (some s.uptodate) block_start
                      (block_end - block_start)).len ≤ pb + k * i_blocksize bb
                · -- handled by the recursive call
                  have hkBLK : B + L + K ≤ k := by
                    rw [hrpos, hK] at hC
                    exact (mul_le_iff_of_pos _ (B + L + K) k hbs).mp (by omega)
                  have hlast : ((iomap_adjust_read_range isize bb (some s.uptodate)
                      block_start (block_end - block_start)).off +
                      (iomap_adjust_read_range isize bb (some s.uptodate) block_start
                        (block_end - block_start)).len - 1) >>> bb < k := by
                    rw [hroff, hK, ← hBLK, Nat.shiftRight_eq_div_pow, ← hbs2]
                    have hx := div_pred_succ_mul (i_blocksize bb)
                      ((B + L + K) * i_blocksize bb) hbs (by omega) ⟨B + L + K, Nat.mul_comm _ _⟩
                    have hxx : ((B + L + K) * i_blocksize bb - 1) / i_blocksize bb + 1 =
                        B + L + K := by
                      have := Nat.eq_of_mul_eq_mul_right hbs hx
                      omega
                    omega
                  have hsk : s₁.uptodate k = false := by
                    rw [hpres k hlast]; exact hnu
                  obtain ⟨op, hopmem, hopc⟩ := ihres.2 h0 k (by omega) hk2 hsk hbnd
                  exact ⟨op, List.mem_append_right _ hopmem, hopc⟩
                · -- inside the trimmed sub-range: the head operation covers it
                  push_neg at hA hC
                  have hkub : k < B + L + K := by
                    rw [hrpos, hK] at hC
                    by_contra hcc
                    push_neg at hcc
                    have h1 : (B + L + K) * i_blocksize bb ≤ k * i_blocksize bb :=
                      (mul_le_iff_of_pos _ (B + L + K) k hbs).mpr hcc
                    omega
                  have hklb : B + L ≤ k := by
                    rw [hrpos] at hA
                    by_contra hcc
                    push_neg at hcc
                    have h1 : (k + 1) * i_blocksize bb ≤ (B + L) * i_blocksize bb :=
                      (mul_le_iff_of_pos _ (k + 1) (B + L) hbs).mpr hcc
                    omega
                  have hcov1 : (iomap_adjust_read_range isize bb (some s.uptodate)
                      block_start (block_end - block_start)).pos ≤
                      pb + k * i_blocksize bb := by
                    rw [hrpos]
                    have h1 : (B + L) * i_blocksize bb ≤ k * i_blocksize bb :=
                      (mul_le_iff_of_pos _ (B + L) k hbs).mpr hklb
                    omega
                  have hcov2 : pb + (k + 1) * i_blocksize bb ≤
                      (iomap_adjust_read_range isize bb (some s.uptodate) block_start
                        (block_end - block_start)).pos +
                      (iomap_adjust_read_range isize bb (some s.uptodate) block_start
                        (block_end - block_start)).len := by
                    rw [hrpos, hK]
                    have h1 : (k + 1) * i_blocksize bb ≤ (B + L + K) * i_blocksize bb :=
                      (mul_le_iff_of_pos _ (k + 1) (B + L + K) hbs).mpr (by omega)
                    omega
                  rcases rps_ops isize bb (iomap_adjust_read_range isize bb
                      (some s.uptodate) block_start (block_end - block_start)).pos pg
                      (iomap_adjust_read_range isize bb (some s.uptodate) block_start
                        (block_end - block_start)).off
                      (iomap_adjust_read_range isize bb (some s.uptodate) block_start
                        (block_end - block_start)).len wfrom wto m readFn with hops | hops
                  · refine ⟨wb_op.zero_segs (iomap_adjust_read_range isize bb
                        (some s.uptodate) block_start (block_end - block_start)).pos
                        (iomap_adjust_read_range isize bb (some s.uptodate) block_start
                          (block_end - block_start)).off wfrom wto
                        (iomap_adjust_read_range isize bb (some s.uptodate) block_start
                          (block_end - block_start)).len,
                      List.mem_append_left _ (by rw [hops]; exact List.mem_singleton.mpr rfl),
                      ?_⟩
                    simp only [wb_op_covers]
                    exact ⟨hcov1, hcov2⟩
                  · refine ⟨wb_op.read_sync (iomap_adjust_read_range isize bb
                        (some s.uptodate) block_start (block_end - block_start)).pos
                        (iomap_adjust_read_range isize bb (some s.uptodate) block_start
                          (block_end - block_start)).off
                        (iomap_adjust_read_range isize bb (some s.uptodate) block_start
                          (block_end - block_start)).len,
                      List.mem_append_left _ (by rw [hops]; exact List.mem_singleton.mpr rfl),
                      ?_⟩
                    simp only [wb_op_covers]
                    exact ⟨hcov1, hcov2⟩
        · -- the sub-range holds no window boundary: nothing read, recurse
          have hlen1 : 1 ≤ (iomap_adjust_read_range isize bb (some s.uptodate)
              block_start (block_end - block_start)).len := by omega
          have hnextdvd : i_blocksize bb ∣
              (iomap_adjust_read_range isize bb (some s.uptodate) block_start
                (block_end - block_start)).pos +
              (iomap_adjust_read_range isize bb (some s.uptodate) block_start
                (block_end - block_start)).len := by
            rw [hrpos, hK]
            exact Nat.dvd_add (Nat.dvd_add hpbdvd ⟨B + L, Nat.mul_comm _ _⟩)
              ⟨K, Nat.mul_comm _ _⟩
          have ihres := ih ((iomap_adjust_read_range isize bb (some s.uptodate)
              block_start (block_end - block_start)).pos +
              (iomap_adjust_read_range isize bb (some s.uptodate) block_start
                (block_end - block_start)).len) block_end pg s
            (by omega) hiop hnextdvd hd2 (by rw [hrpos]; omega) hpb2 hisz
          have hloop : __iomap_write_begin_loop isize bb m readFn wfrom wto pg
              block_start block_end =
              __iomap_write_begin_loop isize bb m readFn wfrom wto pg
                ((iomap_adjust_read_range isize bb (some s.uptodate) block_start
                  (block_end - block_start)).pos +
                  (iomap_adjust_read_range isize bb (some s.uptodate) block_start
                    (block_end - block_start)).len) block_end := by
            conv_lhs => unfold __iomap_write_begin_loop
            rw [dif_pos hlt]
            simp only [hiop, Option.map_some']
            rw [dif_neg hl0, if_neg hcond]
          rw [hloop]
          constructor
          · exact ihres.1
          · intro h0 k hk1 hk2 hnu hbnd
            have hBk : B ≤ k := by
              have h1 : B * i_blocksize bb ≤ k * i_blocksize bb := by omega
              exact (mul_le_iff_of_pos _ B k hbs).mp h1
            have hk1' : (k + 1) * i_blocksize bb =
                k * i_blocksize bb + i_blocksize bb := by ring
            by_cases hA : pb + (k + 1) * i_blocksize bb ≤
                (iomap_adjust_read_range isize bb (some s.uptodate) block_start
                  (block_end - block_start)).pos
            · exfalso
              rw [hrpos] at hA
              have hkBL : k + 1 ≤ B + L :=
                (mul_le_iff_of_pos _ (k + 1) (B + L) hbs).mp (by omega)
              have := hr5 k (by rw [hBdiv]; exact hBk) (by rw [hBdiv]; omega)
              rw [this] at hnu
              cases hnu
            · by_cases hC : (iomap_adjust_read_range isize bb (some s.uptodate)
                  block_start (block_end - block_start)).pos +
                  (iomap_adjust_read_range isize bb (some s.uptodate) block_start
                    (block_end - block_start)).len ≤ pb + k * i_blocksize bb
              · exact ihres.2 h0 k (by omega) hk2 hnu hbnd
              · exfalso
                push_neg at hA hC
                have hkub : k < B + L + K := by
                  rw [hrpos, hK] at hC
                  by_contra hcc
                  push_neg at hcc
                  have h1 : (B + L + K) * i_blocksize bb ≤ k * i_blocksize bb :=
                    (mul_le_iff_of_pos _ (B + L + K) k hbs).mpr hcc
                  omega
                have hklb : B + L ≤ k := by
                  rw [hrpos] at hA
                  by_contra hcc
                  push_neg at hcc
                  have h1 : (k + 1) * i_blocksize bb ≤ (B + L) * i_blocksize bb :=
                    (mul_le_iff_of_pos _ (k + 1) (B + L) hbs).mpr hcc
                  omega
                apply hcond
                have hc1 : (iomap_adjust_read_range isize bb (some s.uptodate)
                    block_start (block_end - block_start)).off ≤
                    k * i_blocksize bb := by
                  rw [hroff]
                  exact (mul_le_iff_of_pos _ (B + L) k hbs).mpr hklb
                have hc2 : (k + 1) * i_blocksize bb ≤
                    (iomap_adjust_read_range isize bb (some s.uptodate) block_start
                      (block_end - block_start)).off +
                    (iomap_adjust_read_range isize bb (some s.uptodate) block_start
                      (block_end - block_start)).len := by
                  rw [hroff, hK]
                  have h1 : (k + 1) * i_blocksize bb ≤ (B + L + K) * i_blocksize bb :=
                    (mul_le_iff_of_pos _ (k + 1) (B + L + K) hbs).mpr (by omega)
                  omega
                omega


/-- C7 (counterexample): `__iomap_write_begin` at `pos = 100`, `len = 3896`
on a fresh page with 1024-byte blocks issues the single device read
`read_sync 0 0 4096`, whose range covers block 1 (`[1024, 2048)`) even
though that block is fully contained in the write window `[100, 3996)`:
blocks fully contained in the window are read when they share a trimmed
sub-range with a boundary block. -/
theorem iomap_write_begin_reads_contained_block :
    (__iomap_write_begin 1000000 10 100 3896 test_page wbt_map wbt_read).2.2 =
      [wb_op.read_sync 0 0 4096] ∧
    (100 ≤ 1024 ∧ 1024 + i_blocksize 10 ≤ 100 + 3896) ∧
    wb_op_covers (wb_op.read_sync 0 0 4096) 1024 (1024 + i_blocksize 10) := by
  refine ⟨?_, by decide, by exact ⟨by decide, by decide⟩⟩
  simp [__iomap_write_begin, __iomap_write_begin_loop, iomap_page_create,
    iomap_adjust_read_range, iomap_read_page_sync, iomap_block_needs_zeroing,
    wbt_map, wbt_read, test_page, lead_run, first_set, i_blocksize, PAGE_SIZE,
    PAGE_SHIFT, IOMAP_MAPPED, IOMAP_F_NEW]

/-- C7: for a write window `[pos, pos + len)` inside the page starting at
`pb` and with its block-aligned hull inside `i_size`, on a page that is not
fully uptodate and has sub-block state `s`: every operation issued by
`__iomap_write_begin` properly contains a boundary of the window in its
page-relative sub-range (so fully-window-interior sub-ranges are never
read or zeroed on their own), and on success every block that overlaps the
window, is not fully contained in it, and is not already uptodate is
covered by a synchronous read (or, for logically-zero extents, a zeroing)
operation before the function returns. -/
theorem iomap_write_begin_preread_spec
    (isize bb pos len pb : Nat) (pg₀ : page) (m : iomap)
    (readFn : Nat → Nat → Int) (s : iomap_page)
    (hbb : bb ≤ PAGE_SHIFT) (hlen : 0 < len)
    (hpb : PAGE_SIZE ∣ pb) (hpb1 : pb ≤ pos)
    (hwin : pos + len ≤ pb + PAGE_SIZE)
    (hisz : pos + len + i_blocksize bb ≤ isize)
    (hiop : (iomap_page_create bb pg₀).iop = some s)
    (hup : (iomap_page_create bb pg₀).uptodate = false) :
    (∀ op ∈ (__iomap_write_begin isize bb pos len pg₀ m readFn).2.2,
      wb_op_boundary op (pos % PAGE_SIZE) (pos % PAGE_SIZE + len)) ∧
    ((__iomap_write_begin isize bb pos len pg₀ m readFn).1 = 0 →
      ∀ k : Nat,
        pb + k * i_blocksize bb < pos + len →
        pos < pb + (k + 1) * i_blocksize bb →
        s.uptodate k = false →
        ¬(pos ≤ pb + k * i_blocksize bb ∧
          pb + (k + 1) * i_blocksize bb ≤ pos + len) →
        ∃ op ∈ (__iomap_write_begin isize bb pos len pg₀ m readFn).2.2,
          wb_op_covers op (pb + k * i_blocksize bb)
            (pb + (k + 1) * i_blocksize bb)) := by
  have hbb12 : bb ≤ 12 := by simpa [PAGE_SHIFT] using hbb
  have hbs : 0 < i_blocksize bb := by unfold i_blocksize; positivity
  have hpagedvd : i_blocksize bb ∣ PAGE_SIZE := by
    have h1 : PAGE_SIZE = 2 ^ 12 := by norm_num [PAGE_SIZE]
    rw [h1]; unfold i_blocksize; exact pow_dvd_pow 2 hbb12
  have hpbdvd : i_blocksize bb ∣ pb := dvd_trans hpagedvd hpb
  obtain ⟨c, hc⟩ := id hpbdvd
  rw [Nat.mul_comm] at hc
  have heq : __iomap_write_begin isize bb pos len pg₀ m readFn =
      __iomap_write_begin_loop isize bb m readFn (pos % PAGE_SIZE)
        (pos % PAGE_SIZE + len) (iomap_page_create bb pg₀)
        (pos / i_blocksize bb * i_blocksize bb)
        ((pos + len + i_blocksize bb - 1) / i_blocksize bb * i_blocksize bb) := by
    simp only [__iomap_write_begin]
    rw [if_neg (by simp [hup])]
  have hfloor : pos / i_blocksize bb * i_blocksize bb ≤ pos :=
    Nat.div_mul_le_self pos (i_blocksize bb)
  have hceil : pos + len ≤
      (pos + len + i_blocksize bb - 1) / i_blocksize bb * i_blocksize bb := by
    have h1 := Nat.div_add_mod (pos + len + i_blocksize bb - 1) (i_blocksize bb)
    have h2 : (pos + len + i_blocksize bb - 1) % i_blocksize bb < i_blocksize bb :=
      Nat.mod_lt _ hbs
    have h3 : i_blocksize bb * ((pos + len + i_blocksize bb - 1) / i_blocksize bb) =
        (pos + len + i_blocksize bb - 1) / i_blocksize bb * i_blocksize bb :=
      Nat.mul_comm _ _
    omega
  have hceil2 : (pos + len + i_blocksize bb - 1) / i_blocksize bb * i_blocksize bb ≤
      pos + len + i_blocksize bb - 1 :=
    Nat.div_mul_le_self _ (i_blocksize bb)
  have hpbstart : pb ≤ pos / i_blocksize bb * i_blocksize bb := by
    have h1 : c ≤ pos / i_blocksize bb := by
      rw [Nat.le_div_iff_mul_le hbs]
      omega
    have h2 : c * i_blocksize bb ≤ pos / i_blocksize bb * i_blocksize bb :=
      Nat.mul_le_mul_right _ h1
    omega
  have hendle : (pos + len + i_blocksize bb - 1) / i_blocksize bb *
      i_blocksize bb ≤ pb + PAGE_SIZE := by
    obtain ⟨d, hd⟩ := Nat.dvd_add hpbdvd hpagedvd
    rw [Nat.mul_comm] at hd
    have h1 : (pos + len + i_blocksize bb - 1) / i_blocksize bb < d + 1 := by
      rw [Nat.div_lt_iff_lt_mul hbs]
      have h2 : (d + 1) * i_blocksize bb = d * i_blocksize bb + i_blocksize bb := by
        ring
      omega
    have h3 : (pos + len + i_blocksize bb - 1) / i_blocksize bb * i_blocksize bb ≤
        d * i_blocksize bb := Nat.mul_le_mul_right _ (by omega)
    omega
  have hendisz : (pos + len + i_blocksize bb - 1) / i_blocksize bb *
      i_blocksize bb ≤ isize := by omega
  obtain ⟨hbdy, hcov⟩ := write_begin_loop_spec isize bb m readFn (pos % PAGE_SIZE)
    (pos % PAGE_SIZE + len) pb hbb hpb
    ((pos + len + i_blocksize bb - 1) / i_blocksize bb * i_blocksize bb)
    (pos / i_blocksize bb * i_blocksize bb)
    ((pos + len + i_blocksize bb - 1) / i_blocksize bb * i_blocksize bb)
    (iomap_page_create bb pg₀) s (by omega) hiop
    ⟨pos / i_blocksize bb, Nat.mul_comm _ _⟩
    ⟨(pos + len + i_blocksize bb - 1) / i_blocksize bb, Nat.mul_comm _ _⟩
    hpbstart hendle hendisz
  rw [heq]
  refine ⟨hbdy, ?_⟩
  intro h0 k hk1 hk2 hku hnc
  have hmodp : pos % PAGE_SIZE = pos - pb :=
    mod_of_page_base pb pos hpb hpb1 (by omega)
  have hbs1 : pos / i_blocksize bb * i_blocksize bb ≤ pb + k * i_blocksize bb := by
    have e1 : (c + k + 1) * i_blocksize bb =
        c * i_blocksize bb + (k + 1) * i_blocksize bb := by ring
    have h1 : pos / i_blocksize bb * i_blocksize bb < (c + k + 1) * i_blocksize bb := by
      omega
    have h2 : pos / i_blocksize bb ≤ c + k := by
      have := Nat.lt_of_mul_lt_mul_right h1
      omega
    have h3 : pos / i_blocksize bb * i_blocksize bb ≤ (c + k) * i_blocksize bb :=
      Nat.mul_le_mul_right _ h2
    have e2 : (c + k) * i_blocksize bb =
        c * i_blocksize bb + k * i_blocksize bb := by ring
    omega
  have hbs2 : pb + (k + 1) * i_blocksize bb ≤
      (pos + len + i_blocksize bb - 1) / i_blocksize bb * i_blocksize bb := by
    have e2 : (c + k) * i_blocksize bb =
        c * i_blocksize bb + k * i_blocksize bb := by ring
    have h1 : (c + k) * i_blocksize bb <
        (pos + len + i_blocksize bb - 1) / i_blocksize bb * i_blocksize bb := by
      omega
    have h2 : c + k < (pos + len + i_blocksize bb - 1) / i_blocksize bb :=
      Nat.lt_of_mul_lt_mul_right h1
    have h3 : (c + k + 1) * i_blocksize bb ≤
        (pos + len + i_blocksize bb - 1) / i_blocksize bb * i_blocksize bb :=
      Nat.mul_le_mul_right _ (by omega)
    have e1 : (c + k + 1) * i_blocksize bb =
        c * i_blocksize bb + (k + 1) * i_blocksize bb := by ring
    omega
  have hbnd : (k * i_blocksize bb < pos % PAGE_SIZE ∧
      pos % PAGE_SIZE < (k + 1) * i_blocksize bb) ∨
      (k * i_blocksize bb < pos % PAGE_SIZE + len ∧
      pos % PAGE_SIZE + len < (k + 1) * i_blocksize bb) := by
    rw [hmodp]
    push_neg at hnc
    by_cases hcase : pos ≤ pb + k * i_blocksize bb
    · right
      have := hnc hcase
      omega
    · left
      omega
  obtain ⟨op, hmem, hcv⟩ := hcov h0 k hbs1 hbs2 hku hbnd
  exact ⟨op, hmem, hcv⟩

/-- C7 (witness): the specification instantiated at `pos = 100`,
`len = 3896`, 1024-byte blocks on a fresh page: block 0 overlaps the
window, is not fully contained in it and is not uptodate, so an issued
operation covers it. -/
theorem iomap_write_begin_preread_spec_witness :
    ∃ op ∈ (__iomap_write_begin 1000000 10 100 3896 test_page wbt_map
        wbt_read).2.2,
      wb_op_covers op (0 + 0 * i_blocksize 10) (0 + (0 + 1) * i_blocksize 10) := by
  have h := iomap_write_begin_preread_spec 1000000 10 100 3896 0 test_page wbt_map
    wbt_read ⟨fun _ => false, 0, 0⟩ (by decide) (by decide) (by decide) (by decide)
    (by decide) (by decide) rfl rfl
  refine h.2 ?_ 0 (by decide) (by decide) rfl (by decide)
  simp [__iomap_write_begin, __iomap_write_begin_loop, iomap_page_create,
    iomap_adjust_read_range, iomap_read_page_sync, iomap_block_needs_zeroing,
    wbt_map, wbt_read, test_page, lead_run, first_set, i_blocksize, PAGE_SIZE,
    PAGE_SHIFT, IOMAP_MAPPED, IOMAP_F_NEW]
